import Mathlib

/-!
Verification of the PlantUML_RUST core against its specification.

The development shallowly embeds the sequence-diagram parser driver
(`crates/plantuml-parser/src/parsers/sequence.rs`), the sequence layout engine
(`crates/plantuml-layout/src/sequence/engine.rs`) and the state layout engine
(`crates/plantuml-layout/src/state/engine.rs`).  Geometry uses `ℚ` in place of
`f64`: every constant appearing in the embedded code is a small decimal, and the
only divisions are by `2`, so rational arithmetic is exact on all embedded
computations.  Components of the repository that are not part of the three
embedded files (the pest grammar, `DiagramMetrics`, `SequenceLayoutConfig`,
`LayoutResult.calculate_bounds`) are modelled from the specification text and
carry a doc comment saying so.
-/

namespace PlantUml

/-- Geometric point, from `plantuml_model::Point` (coordinates modelled as `ℚ`). -/
structure Point where
  x : ℚ
  y : ℚ
deriving Repr, DecidableEq

/-- Geometric rectangle, from `plantuml_model::Rect`. -/
structure Rect where
  x : ℚ
  y : ℚ
  width : ℚ
  height : ℚ
deriving Repr, DecidableEq

/-- Line style of an arrow, from `plantuml_ast::common::LineStyle`. -/
inductive LineStyle where
  | Solid
  | Dashed
  | Dotted
deriving Repr, DecidableEq

/-- Arrow-head type, from `plantuml_ast::sequence::ArrowType`. -/
inductive ArrowType where
  | Normal
  | Thin
  | Cross
  | Circle
  | HalfTop
deriving Repr, DecidableEq

/-- Participant kind, from `plantuml_ast::sequence::ParticipantType`. -/
inductive ParticipantType where
  | Participant
  | Actor
  | Boundary
  | Control
  | Entity
  | Database
  | Collections
  | Queue
deriving Repr, DecidableEq

/-- Sequence-diagram participant.  Colors, stereotypes and explicit order are
irrelevant to every embedded computation and are omitted; `name`, `alias` and
the participant type are the fields the engine and parser driver read. -/
structure Participant where
  name : String
  alias_ : Option String
  ptype : ParticipantType
deriving Repr, DecidableEq

/-- Sequence message, from `plantuml_ast::sequence::Message`.  `from` is a Lean
keyword and `to` a reserved token, hence the field names `from_`, `to_`. -/
structure Message where
  from_ : String
  to_ : String
  label : String
  line_style : LineStyle
  arrow_type : ArrowType
  activate : Bool
  deactivate : Bool
  create : Bool
  destroy : Bool
deriving Repr, DecidableEq

/-- `Message::new` with all flags false, solid line, normal arrow. -/
def Message.new (from_ to_ label : String) : Message :=
  ⟨from_, to_, label, LineStyle.Solid, ArrowType.Normal, false, false, false, false⟩

/-- Note position, from `plantuml_ast::common::NotePosition`. -/
inductive NotePosition where
  | Left
  | Right
  | Over
  | Top
  | Bottom
deriving Repr, DecidableEq

/-- Note attached to participants, from `plantuml_ast::common::Note` (background
color omitted: the sequence engine never reads it). -/
structure Note where
  position : NotePosition
  anchors : List String
  text : String
deriving Repr, DecidableEq

/-- Activation statement kind, from `plantuml_ast::sequence::ActivationType`. -/
inductive ActivationType where
  | Activate
  | Deactivate
  | Destroy
deriving Repr, DecidableEq

/-- Explicit activate/deactivate/destroy statement, from
`plantuml_ast::sequence::Activation` (color omitted: unread by the engine). -/
structure Activation where
  participant : String
  activation_type : ActivationType
deriving Repr, DecidableEq

/-- Autonumber start/resume parameters, from
`plantuml_ast::sequence::AutonumberStart`. -/
structure AutonumberStart where
  start : Option Nat
  step : Option Nat
  format : Option String
deriving Repr, DecidableEq

/-- Autonumber directive, from `plantuml_ast::sequence::AutonumberCommand`. -/
inductive AutonumberCommand where
  | Start (params : AutonumberStart)
  | Stop
  | Resume (params : Option AutonumberStart)
  | Inc (level : String)
deriving Repr, DecidableEq

/-- Return statement, from `plantuml_ast::sequence::Return`. -/
structure Return where
  label : Option String
deriving Repr, DecidableEq

/-- Fragment kind, from `plantuml_ast::sequence::FragmentType`. -/
inductive FragmentType where
  | Alt
  | Opt
  | Loop
  | Par
  | Break
  | Critical
  | Group
  | Ref
deriving Repr, DecidableEq

/-- Participant box grouping, from `plantuml_ast::sequence::ParticipantBox`
(the color is kept as its CSS string, the only form the engine uses). -/
structure ParticipantBox where
  title : Option String
  color : Option String
  participants : List String
deriving Repr, DecidableEq

mutual
/-- Sequence diagram element, from `plantuml_ast::sequence::SequenceElement`. -/
inductive SequenceElement where
  | message (msg : Message)
  | fragment (frag : Fragment)
  | note (n : Note)
  | activation (act : Activation)
  | divider (text : String)
  | delay (text : Option String)
  | space (height : Nat)
  | reference
  | autonumberCmd (cmd : AutonumberCommand)
  | ret (r : Return)
deriving Repr

/-- Fragment node: type, header condition, and sections. -/
inductive Fragment where
  | mk (fragment_type : FragmentType) (condition : Option String)
       (sections : List FragmentSectionAst)
deriving Repr

/-- One fragment section: optional condition and child elements. -/
inductive FragmentSectionAst where
  | mk (condition : Option String) (elements : List SequenceElement)
deriving Repr
end

def Fragment.fragment_type : Fragment → FragmentType
  | .mk t _ _ => t

def Fragment.condition : Fragment → Option String
  | .mk _ c _ => c

def Fragment.sections : Fragment → List FragmentSectionAst
  | .mk _ _ s => s

def FragmentSectionAst.condition : FragmentSectionAst → Option String
  | .mk c _ => c

def FragmentSectionAst.elements : FragmentSectionAst → List SequenceElement
  | .mk _ e => e

/-- Whole sequence diagram, from `plantuml_ast::sequence::SequenceDiagram`
(the unread metadata besides the title is omitted). -/
structure SequenceDiagram where
  participants : List Participant
  elements : List SequenceElement
  boxes : List ParticipantBox
  title : Option String
deriving Repr

/-- `SequenceDiagram::new`. -/
def SequenceDiagram.new : SequenceDiagram := ⟨[], [], [], none⟩

/-- Parse error, from the parser crate's `ParseError`. -/
inductive ParseError where
  | SyntaxError (line : Nat) (message : String)
deriving Repr, DecidableEq

/-- Rust `str::contains` for a literal pattern, on the character list. -/
def str_contains (s pat : String) : Bool :=
  s.data.tails.any (fun t => pat.data.isPrefixOf t)

/-- Rust `str::starts_with`, on the character list (kernel-reducible). -/
def str_starts_with (s pat : String) : Bool :=
  pat.data.isPrefixOf s.data

/-- Rust `str::ends_with`, on the character list (kernel-reducible). -/
def str_ends_with (s pat : String) : Bool :=
  pat.data.isSuffixOf s.data

/-- Parses an arrow token into line style and arrow type, from `parse_arrow`
in `parsers/sequence.rs`. -/
def parse_arrow (arrow_str : String) : LineStyle × ArrowType :=
  let line_style :=
    if str_contains arrow_str ".." || str_starts_with arrow_str "." ||
        str_contains arrow_str "--" then
      LineStyle.Dashed
    else
      LineStyle.Solid
  let arrow_type :=
    if str_contains arrow_str ">>" then
      ArrowType.Thin
    else if str_contains arrow_str "\\\\" || str_contains arrow_str "//" then
      ArrowType.HalfTop
    else if str_ends_with arrow_str "o" || str_contains arrow_str ">o" then
      ArrowType.Circle
    else if str_ends_with arrow_str "x" || str_contains arrow_str ">x" then
      ArrowType.Cross
    else
      ArrowType.Normal
  (line_style, arrow_type)

/-- Modelled from the spec: the pest grammar `grammars/sequence.pest` is not in
src.  §4.1.1 gives the message arrow token the shape `core ++ arrow_head` where
the core is one or two dashes (dotted variants `.`/`..` are named by the style
rule and by the `parse_arrow` doc comment), and the heads are the ones the spec
enumerates for the arrow-type rule. -/
def arrow_cores : List String := ["-", "--", ".", ".."]

/-- Modelled from the spec: the arrow heads named in §4.1.1. -/
def arrow_heads : List String := [">", ">>", ">x", ">o", "\\", "\\\\", "/", "//"]

/-- Modelled from the spec: the set of arrow tokens accepted by the message
grammar. -/
def accepted_arrows : List String :=
  arrow_cores.flatMap (fun c => arrow_heads.map (fun h => c ++ h))

/-- The line style the spec's sentence assigns to an arrow token. -/
def spec_line_style (a : String) : LineStyle :=
  if str_contains a "--" || str_contains a ".." then LineStyle.Dashed
  else LineStyle.Solid

/-- The arrow type the spec's sentence assigns to an arrow token, in the order
the sentence lists the cases. -/
def spec_arrow_type (a : String) : ArrowType :=
  if str_contains a ">>" then ArrowType.Thin
  else if str_contains a ">x" then ArrowType.Cross
  else if str_contains a ">o" then ArrowType.Circle
  else if str_contains a "\\\\" || str_contains a "//" then ArrowType.HalfTop
  else ArrowType.Normal

/-- Fragment stack entry of the parser driver: `(fragment type, fragment
condition, current section condition, finished sections)`, from the
`FragmentStackEntry` alias in `parsers/sequence.rs`. -/
def FragmentStackEntry :=
  FragmentType × Option String × Option String × List FragmentSectionAst

/-- Box state of the parser driver: `(title, color, participants)`, from the
`BoxState` alias in `parsers/sequence.rs`. -/
def BoxState := Option String × Option String × List String

/-- Modelled from the spec: the pest grammar `grammars/sequence.pest` is not in
src, so a surface text that the grammar accepts is modelled as the list of
matched grammar rules together with the payloads the helper parsers
(`parse_message`, `parse_fragment_start`, ...) extract from them; `process_rule`
consumes exactly this information. -/
inductive PRule where
  | box_start (title : Option String) (color : Option String)
  | box_end
  | participant_decl (p : Participant)
  | message (m : Message)
  | fragment_start (ftype : FragmentType) (condition : Option String)
  | fragment_else (condition : Option String)
  | fragment_end
  | note_stmt (n : Note)
  | divider (text : Option String)
  | delay (text : Option String)
  | title_stmt (t : Option String)
  | activate_stmt (p : String)
  | deactivate_stmt (p : String)
  | destroy_stmt (p : String)
  | autonumber (c : AutonumberCommand)
  | return_stmt (label : Option String)
deriving Repr

/-- The mutable state threaded through `process_rule` by `parse_sequence`. -/
structure ParseState where
  diagram : SequenceDiagram
  fragment_stack : List FragmentStackEntry
  current_section_elements : List SequenceElement
  current_box : Option BoxState

/-- Initial parse state of `parse_sequence`. -/
def ParseState.init : ParseState :=
  ⟨SequenceDiagram.new, [], [], none⟩

/-- The `if fragment_stack.is_empty ... else ...` push used all over
`process_rule` to route an element to the diagram or to the open section. -/
def push_element (st : ParseState) (element : SequenceElement) : ParseState :=
  if st.fragment_stack.isEmpty then
    { st with diagram :=
        { st.diagram with elements := st.diagram.elements ++ [element] } }
  else
    { st with current_section_elements :=
        st.current_section_elements ++ [element] }

/-- Processes one grammar rule, from `process_rule` in `parsers/sequence.rs`.
The Rust fragment stack is a `Vec` pushed/popped at the back; the Lean list
keeps the top at the head. -/
def process_rule (st : ParseState) (pair : PRule) : ParseState :=
  match pair with
  | .box_start title color =>
      { st with current_box := some (title, color, []) }
  | .box_end =>
      match st.current_box with
      | some (title, color, participants) =>
          { st with
            diagram := { st.diagram with
              boxes := st.diagram.boxes ++ [⟨title, color, participants⟩] },
            current_box := none }
      | none => st
  | .participant_decl participant =>
      let st :=
        match st.current_box with
        | some (title, color, participants) =>
            let name := participant.alias_.getD participant.name
            { st with current_box := some (title, color, participants ++ [name]) }
        | none => st
      { st with diagram := { st.diagram with
          participants := st.diagram.participants ++ [participant] } }
  | .message m => push_element st (.message m)
  | .fragment_start frag_type condition =>
      { st with
        fragment_stack := (frag_type, condition, condition, []) :: st.fragment_stack,
        current_section_elements := [] }
  | .fragment_else new_condition =>
      match st.fragment_stack with
      | (ft, fc, current_condition, sections) :: rest =>
          { st with
            fragment_stack :=
              (ft, fc, new_condition,
               sections ++ [.mk current_condition st.current_section_elements]) :: rest,
            current_section_elements := [] }
      | [] => st
  | .fragment_end =>
      match st.fragment_stack with
      | (frag_type, condition, current_condition, sections) :: rest =>
          let sections :=
            sections ++ [.mk current_condition st.current_section_elements]
          let fragment : Fragment := .mk frag_type condition sections
          let st := { st with fragment_stack := rest,
                              current_section_elements := [] }
          push_element st (.fragment fragment)
      | [] => st
  | .note_stmt n => push_element st (.note n)
  | .divider text => push_element st (.divider (text.getD ""))
  | .delay text => push_element st (.delay text)
  | .title_stmt t =>
      match t with
      | some title => { st with diagram := { st.diagram with title := some title } }
      | none => st
  | .activate_stmt p => push_element st (.activation ⟨p, .Activate⟩)
  | .deactivate_stmt p => push_element st (.activation ⟨p, .Deactivate⟩)
  | .destroy_stmt p => push_element st (.activation ⟨p, .Destroy⟩)
  | .autonumber c => push_element st (.autonumberCmd c)
  | .return_stmt label => push_element st (.ret ⟨label⟩)

/-- Runs `process_rule` over the whole rule stream. -/
def process_rules (rules : List PRule) : ParseState :=
  rules.foldl process_rule ParseState.init

/-- Parses a sequence diagram from an already grammar-accepted rule stream,
from `parse_sequence` in `parsers/sequence.rs`: after the pest grammar
succeeds, the tree walk never produces an error. -/
def parse_sequence (rules : List PRule) : Except ParseError SequenceDiagram :=
  .ok (process_rules rules).diagram

/-- Whether the rule stream contains a `fragment_end` reached while the
fragment stack of the run is empty. -/
def empty_end_occurs (rules : List PRule) : Bool :=
  (List.range rules.length).any (fun i =>
    match rules.get? i with
    | some .fragment_end => (rules.take i).foldl process_rule ParseState.init
        |>.fragment_stack.isEmpty
    | _ => false)

/-- Number of `fragment_start` rules in a stream. -/
def count_starts (rules : List PRule) : Nat :=
  rules.countP (fun r => match r with | .fragment_start _ _ => true | _ => false)

/-- Number of `fragment_end` rules in a stream. -/
def count_ends (rules : List PRule) : Nat :=
  rules.countP (fun r => match r with | .fragment_end => true | _ => false)

lemma push_element_stack (st : ParseState) (e : SequenceElement) :
    (push_element st e).fragment_stack = st.fragment_stack := by
  unfold push_element; split <;> rfl

lemma push_element_elements (st : ParseState) (e : SequenceElement)
    (h : st.fragment_stack ≠ []) :
    (push_element st e).diagram.elements = st.diagram.elements := by
  unfold push_element
  split
  · next hemp => simp [List.isEmpty_iff] at hemp; exact absurd hemp h
  · rfl

lemma process_rule_stack_length (st : ParseState) (r : PRule) :
    (process_rule st r).fragment_stack.length
      = match r with
        | .fragment_start _ _ => st.fragment_stack.length + 1
        | .fragment_end => st.fragment_stack.length - 1
        | _ => st.fragment_stack.length := by
  obtain ⟨d, fs, cse, cb⟩ := st
  cases r with
  | box_start t c => rfl
  | box_end =>
      cases cb with
      | none => rfl
      | some b => obtain ⟨t, c, ps⟩ := b; rfl
  | participant_decl p =>
      cases cb with
      | none => rfl
      | some b => obtain ⟨t, c, ps⟩ := b; rfl
  | message m => simp [process_rule, push_element_stack]
  | fragment_start t c => rfl
  | fragment_else c =>
      cases fs with
      | nil => rfl
      | cons e rest => obtain ⟨ft, fc, cc, ss⟩ := e; rfl
  | fragment_end =>
      cases fs with
      | nil => rfl
      | cons e rest =>
          obtain ⟨ft, fc, cc, ss⟩ := e
          simp [process_rule, push_element_stack]
  | note_stmt n => simp [process_rule, push_element_stack]
  | divider t => simp [process_rule, push_element_stack]
  | delay t => simp [process_rule, push_element_stack]
  | title_stmt t => cases t <;> rfl
  | activate_stmt p => simp [process_rule, push_element_stack]
  | deactivate_stmt p => simp [process_rule, push_element_stack]
  | destroy_stmt p => simp [process_rule, push_element_stack]
  | autonumber c => simp [process_rule, push_element_stack]
  | return_stmt l => simp [process_rule, push_element_stack]

lemma process_rule_elements_stable (st : ParseState) (r : PRule)
    (h1 : st.fragment_stack ≠ [])
    (h2 : r = .fragment_end → 2 ≤ st.fragment_stack.length) :
    (process_rule st r).diagram.elements = st.diagram.elements := by
  obtain ⟨d, fs, cse, cb⟩ := st
  cases r with
  | box_start t c => rfl
  | box_end =>
      cases cb with
      | none => rfl
      | some b => obtain ⟨t, c, ps⟩ := b; rfl
  | participant_decl p =>
      cases cb with
      | none => rfl
      | some b => obtain ⟨t, c, ps⟩ := b; rfl
  | message m => exact push_element_elements _ _ h1
  | fragment_start t c => rfl
  | fragment_else c =>
      cases fs with
      | nil => rfl
      | cons e rest => obtain ⟨ft, fc, cc, ss⟩ := e; rfl
  | fragment_end =>
      cases fs with
      | nil => rfl
      | cons e rest =>
          obtain ⟨ft, fc, cc, ss⟩ := e
          have hrest : rest ≠ [] := by
            have := h2 rfl
            simp at this
            exact List.ne_nil_of_length_pos (by omega)
          exact push_element_elements _ _ hrest
  | note_stmt n => exact push_element_elements _ _ h1
  | divider t => exact push_element_elements _ _ h1
  | delay t => exact push_element_elements _ _ h1
  | title_stmt t => cases t <;> rfl
  | activate_stmt p => exact push_element_elements _ _ h1
  | deactivate_stmt p => exact push_element_elements _ _ h1
  | destroy_stmt p => exact push_element_elements _ _ h1
  | autonumber c => exact push_element_elements _ _ h1
  | return_stmt l => exact push_element_elements _ _ h1

/-- While the running fragment stack stays provably nonempty (the bracket count
never lets `end`s overtake `start`s relative to the current depth), the
diagram's element list is frozen. -/
lemma run_elements_stable (post : List PRule) : ∀ (st : ParseState),
    (∀ k, k ≤ post.length →
      count_ends (post.take k) + 1
        ≤ count_starts (post.take k) + st.fragment_stack.length) →
    (post.foldl process_rule st).diagram.elements = st.diagram.elements := by
  induction post with
  | nil => intro st _; rfl
  | cons r rest ih =>
      intro st H
      have H1 := H 1 (by simp)
      simp only [List.take_succ_cons, List.take_zero] at H1
      have hlen : 1 ≤ st.fragment_stack.length := by
        have H0 := H 0 (Nat.zero_le _)
        simp [count_ends, count_starts] at H0
        omega
      have hne : st.fragment_stack ≠ [] :=
        List.ne_nil_of_length_pos (by omega)
      have hend : r = .fragment_end → 2 ≤ st.fragment_stack.length := by
        intro hr; subst hr
        simp [count_ends, count_starts, List.countP_cons] at H1
        omega
      have hstable := process_rule_elements_stable st r hne hend
      have hstep := process_rule_stack_length st r
      simp only [List.foldl_cons]
      rw [ih (process_rule st r) ?_, hstable]
      intro k hk
      have Hk := H (k + 1) (by simpa using Nat.succ_le_succ hk)
      simp only [List.take_succ_cons] at Hk
      cases r <;>
        simp [count_ends, count_starts, List.countP_cons] at Hk hstep ⊢ <;>
        omega

/-- C3 counterexample: the rule stream consisting of a single fragment `end`
reaches that `end` with an empty fragment stack, yet `parse_sequence` returns
`Ok` (with the empty diagram) instead of the claimed `Err(SyntaxError)`. -/
theorem C3_empty_end_ok_counterexample :
    empty_end_occurs [PRule.fragment_end] = true ∧
    parse_sequence [PRule.fragment_end] = .ok SequenceDiagram.new := by
  exact ⟨by decide, rfl⟩

/-- C3 (amended): once the grammar accepts the input, `parse_sequence` never
returns `Err`; a fragment `end` occurring while the fragment stack is empty is
silently ignored — the parse state is left unchanged. -/
theorem C3_empty_end_ignored (st : ParseState) (rules : List PRule)
    (h : st.fragment_stack = []) :
    process_rule st .fragment_end = st ∧
    (parse_sequence rules).isOk = true := by
  refine ⟨?_, rfl⟩
  obtain ⟨d, fs, cse, cb⟩ := st
  simp only at h
  subst h
  rfl

/-- Witness for `C3_empty_end_ignored` at the initial state and the one-rule
stream. -/
theorem C3_empty_end_ignored_witness :
    ParseState.init.fragment_stack = [] ∧
    (process_rule ParseState.init .fragment_end = ParseState.init ∧
      (parse_sequence [PRule.fragment_end]).isOk = true) :=
  ⟨rfl, C3_empty_end_ignored ParseState.init [PRule.fragment_end] rfl⟩

/-- C10: if a fragment opening is never matched by an `end` (in every prefix of
the remainder the `end`s never outnumber the `start`s), the parse still
succeeds, and the diagram's element list is exactly what it was before the
opening: neither the fragment nor any element recognized after the opening is
emitted. -/
theorem C10_unclosed_fragment_dropped (pre : List PRule) (t : FragmentType)
    (c : Option String) (post : List PRule)
    (H : ∀ k, k ≤ post.length →
      count_ends (post.take k) ≤ count_starts (post.take k)) :
    (process_rules (pre ++ .fragment_start t c :: post)).diagram.elements
      = (process_rules pre).diagram.elements ∧
    (parse_sequence (pre ++ .fragment_start t c :: post)).isOk = true := by
  refine ⟨?_, rfl⟩
  unfold process_rules
  rw [List.foldl_append, List.foldl_cons]
  set st0 := pre.foldl process_rule ParseState.init with hst0
  have hstart : (process_rule st0 (.fragment_start t c)).diagram.elements
      = st0.diagram.elements := by
    obtain ⟨d, fs, cse, cb⟩ := st0
    rfl
  have hlen : (process_rule st0 (.fragment_start t c)).fragment_stack.length
      = st0.fragment_stack.length + 1 := process_rule_stack_length st0 _
  rw [run_elements_stable post (process_rule st0 (.fragment_start t c)) ?_, hstart]
  intro k hk
  have := H k hk
  omega

/-- Witness for `C10_unclosed_fragment_dropped`: a message, an unclosed `alt`,
then another message — the second message is dropped, the first is kept. -/
theorem C10_unclosed_fragment_dropped_witness :
    (∀ k, k ≤ ([PRule.message (Message.new "Alice" "Bob" "inner")] : List PRule).length →
      count_ends (([PRule.message (Message.new "Alice" "Bob" "inner")] : List PRule).take k)
        ≤ count_starts (([PRule.message (Message.new "Alice" "Bob" "inner")] : List PRule).take k)) ∧
    ((process_rules ([PRule.message (Message.new "Alice" "Bob" "hi")] ++
        .fragment_start .Alt (some "ok") :: [PRule.message (Message.new "Alice" "Bob" "inner")])).diagram.elements
      = (process_rules [PRule.message (Message.new "Alice" "Bob" "hi")]).diagram.elements ∧
    (parse_sequence ([PRule.message (Message.new "Alice" "Bob" "hi")] ++
        .fragment_start .Alt (some "ok") :: [PRule.message (Message.new "Alice" "Bob" "inner")])).isOk = true) :=
  ⟨by decide,
   C10_unclosed_fragment_dropped [PRule.message (Message.new "Alice" "Bob" "hi")]
     .Alt (some "ok") [PRule.message (Message.new "Alice" "Bob" "inner")] (by decide)⟩

/-- C5 counterexample: the dotted arrow token `.>` is in the accepted arrow
set, contains neither `--` nor `..`, yet `parse_arrow` classifies it as
`Dashed` — the claimed iff fails. -/
theorem C5_arrow_counterexample :
    ".>" ∈ accepted_arrows ∧
    (parse_arrow ".>").1 = LineStyle.Dashed ∧
    spec_line_style ".>" = LineStyle.Solid := by
  decide

/-- C5 (amended): on every accepted arrow token, `line_style` is `Dashed` iff
the token contains `--` or `..` **or starts with a single `.`**; the arrow-type
clause of the claim holds as stated. -/
theorem C5_arrow_classification (a : String) (h : a ∈ accepted_arrows) :
    (parse_arrow a).1
      = (if str_contains a "--" || str_contains a ".." || str_starts_with a "." then
          LineStyle.Dashed
        else LineStyle.Solid) ∧
    (parse_arrow a).2 = spec_arrow_type a := by
  have hall : ∀ x ∈ accepted_arrows,
      (parse_arrow x).1
        = (if str_contains x "--" || str_contains x ".." ||
              str_starts_with x "." then
            LineStyle.Dashed
          else LineStyle.Solid) ∧
      (parse_arrow x).2 = spec_arrow_type x := by decide
  exact hall a h

/-- Witness for `C5_arrow_classification` at the plain solid arrow `->`. -/
theorem C5_arrow_classification_witness :
    "->" ∈ accepted_arrows ∧
    ((parse_arrow "->").1
      = (if str_contains "->" "--" || str_contains "->" ".." ||
            str_starts_with "->" "." then
          LineStyle.Dashed
        else LineStyle.Solid) ∧
    (parse_arrow "->").2 = spec_arrow_type "->") :=
  ⟨by decide, C5_arrow_classification "->" (by decide)⟩

/-- Edge kind, from the layout crate's `EdgeType` (only the two variants the
sequence engine produces are listed; the other variants are never emitted by
the embedded code). -/
inductive EdgeType where
  | Association
  | Link
deriving Repr, DecidableEq

mutual
/-- Kind and payload of a layout element, from the layout crate's
`ElementType`. -/
inductive ElementType where
  | rectangle (label : String) (corner_radius : ℚ)
  | ellipse (label : Option String)
  | text (text : String) (font_size : ℚ)
  | edge (points : List Point) (label : Option String)
         (arrow_start arrow_end dashed : Bool) (edge_type : EdgeType)
         (from_cardinality to_cardinality : Option String)
  | fragment (fragment_type : String) (sections : List FragmentSection)
  | state (name : String) (description : Option String)
  | compositeState (name : String) (header_height : ℚ)
  | initialState
  | finalState
  | activation
  | participantBox
deriving Repr

/-- A laid-out fragment section, from the layout crate's `FragmentSection`. -/
inductive FragmentSection where
  | mk (condition : Option String) (start_y end_y : ℚ)
       (children : List LayoutElement)
deriving Repr

/-- A positioned element, from the layout crate's `LayoutElement`.  The Rust
string-keyed `HashMap` property map is modelled as an association list in
insertion order. -/
inductive LayoutElement where
  | mk (id : String) (bounds : Rect) (text : Option String)
       (properties : List (String × String)) (element_type : ElementType)
deriving Repr
end

def LayoutElement.id : LayoutElement → String
  | .mk i _ _ _ _ => i

def LayoutElement.bounds : LayoutElement → Rect
  | .mk _ b _ _ _ => b

def LayoutElement.text : LayoutElement → Option String
  | .mk _ _ t _ _ => t

def LayoutElement.properties : LayoutElement → List (String × String)
  | .mk _ _ _ p _ => p

def LayoutElement.element_type : LayoutElement → ElementType
  | .mk _ _ _ _ e => e

/-- Replaces the bounds of a layout element. -/
def LayoutElement.with_bounds : LayoutElement → Rect → LayoutElement
  | .mk i _ t p e, b => .mk i b t p e

/-- The engine's output, from the layout crate's `LayoutResult`. -/
structure LayoutResult where
  elements : List LayoutElement
  bounds : Rect

/-- Modelled from the spec: `LayoutResult::calculate_bounds` lives in the
layout-primitives module that is not in src.  Per §3.3 the bounds are the
tight union of all element bounds; with no elements the zero rectangle the
engine constructed is kept. -/
def LayoutResult.calculate_bounds (r : LayoutResult) : LayoutResult :=
  match r.elements with
  | [] => r
  | e :: es =>
      let min_x := (es.map (fun el => el.bounds.x)).foldl min e.bounds.x
      let min_y := (es.map (fun el => el.bounds.y)).foldl min e.bounds.y
      let max_r := (es.map (fun el => el.bounds.x + el.bounds.width)).foldl max
        (e.bounds.x + e.bounds.width)
      let max_b := (es.map (fun el => el.bounds.y + el.bounds.height)).foldl max
        (e.bounds.y + e.bounds.height)
      { r with bounds := ⟨min_x, min_y, max_r - min_x, max_b - min_y⟩ }

/-- Modelled from the spec: `SequenceLayoutConfig` lives in the missing
`sequence/config.rs`.  The constants follow §4.2 of the spec and the engine's
own comments (`message_spacing` 28 and `fragment_header_height` 22 are named
there); all are positive. -/
structure SequenceLayoutConfig where
  margin : ℚ := 10
  participant_height : ℚ := 40
  message_spacing : ℚ := 28
  line_height : ℚ := 15
  note_width : ℚ := 100
  note_height : ℚ := 40
  divider_height : ℚ := 30
  delay_height : ℚ := 30
  fragment_header_height : ℚ := 22
  fragment_padding : ℚ := 10
  activation_width : ℚ := 10
  box_title_height : ℚ := 30
  font_size : ℚ := 13

/-- The default configuration the engine is constructed with. -/
def config : SequenceLayoutConfig := {}

/-- Modelled from the spec: per-participant header width from the monospace
text-metric function of §4.2.1, with a floor so short names still get a
readable box. -/
def SequenceLayoutConfig.participant_width_for_name (_c : SequenceLayoutConfig)
    (name : String) : ℚ :=
  max 50 ((8 : ℚ) * name.length + 20)

/-- Modelled from the spec: message-label width from the monospace text-metric
function of §4.2.1 (`width(text, font_size)`), linear in the character count. -/
def SequenceLayoutConfig.message_label_width (_c : SequenceLayoutConfig)
    (label : String) : ℚ :=
  (7 : ℚ) * label.length

/-- One open activation entry `{participant, level, start_y}` (§4.2.3). -/
structure ActivationInfo where
  participant : String
  level : Nat
  start_y : ℚ
deriving Repr, DecidableEq

/-- The engine's autonumber state `{enabled, current, step, format?}`
(§4.2.5). -/
structure AutonumberState where
  enabled : Bool
  current : Nat
  step : Nat
  format : Option String
deriving Repr, DecidableEq

/-- Left-pads a decimal rendering with zeros to the given width. -/
def pad_zeros (n : Nat) (width : Nat) : String :=
  let s := toString n
  ⟨List.replicate (width - s.length) '0' ++ s.data⟩

/-- Modelled from the spec: autonumber formatting (§4.2.5) — the digit mask's
`0` characters zero-pad the number, all other characters are literal.  The
first maximal run of `0`s is replaced by the padded number. -/
def format_autonumber (format : Option String) (current : Nat) : String :=
  match format with
  | none => toString current
  | some f =>
      let before := f.data.takeWhile (fun ch => ch ≠ '0')
      let rest := f.data.dropWhile (fun ch => ch ≠ '0')
      let zeros := rest.takeWhile (fun ch => ch = '0')
      let after := rest.dropWhile (fun ch => ch = '0')
      if zeros.isEmpty then f
      else ⟨before⟩ ++ pad_zeros current zeros.length ++ ⟨after⟩

/-- Modelled from the spec: `AutonumberState::next` formats the current number
and advances the counter by the step (§4.2.5). -/
def AutonumberState.next (a : AutonumberState) : String × AutonumberState :=
  (format_autonumber a.format a.current, { a with current := a.current + a.step })

/-- Per-participant placement record, from the missing
`sequence/metrics.rs::ParticipantMetrics`; the fields are the ones the engine
reads. -/
structure ParticipantMetrics where
  id : String
  display_name : String
  center_x : ℚ
  width : ℚ
  header_bounds : Rect
deriving Repr, DecidableEq

/-- Modelled from the spec: the engine's scratch state `DiagramMetrics` lives
in the missing `sequence/metrics.rs`.  §4.2 and §9 name its parts: the
participant map (ordering is deterministic per §5, so it is modelled as an
association list in insertion order), the `current_y` cursor, per-participant
activation stacks, the completed-activation list, the call stack for returns
and the autonumber state. -/
structure DiagramMetrics where
  participants : List (String × ParticipantMetrics)
  current_y : ℚ
  max_x : ℚ
  last_message_y : ℚ
  activation_stacks : List (String × List ActivationInfo)
  completed_activations : List (ActivationInfo × ℚ)
  call_stack : List (String × String)
  autonumber : AutonumberState

/-- `DiagramMetrics::new`: empty maps, zero cursor, autonumber disabled. -/
def DiagramMetrics.new : DiagramMetrics :=
  ⟨[], 0, 0, 0, [], [], [], ⟨false, 1, 1, none⟩⟩

/-- Association-list lookup (the map operations of the modelled metrics). -/
def alist_get {α : Type} (l : List (String × α)) (k : String) : Option α :=
  match l with
  | [] => none
  | (k', v) :: rest => if k' = k then some v else alist_get rest k

/-- Association-list update: replaces the value at the key, or appends. -/
def alist_put {α : Type} (l : List (String × α)) (k : String) (v : α) :
    List (String × α) :=
  match l with
  | [] => [(k, v)]
  | (k', v') :: rest =>
      if k' = k then (k', v) :: rest else (k', v') :: alist_put rest k v

/-- Advances the vertical cursor (§4.2.2). -/
def DiagramMetrics.advance_y (m : DiagramMetrics) (h : ℚ) : DiagramMetrics :=
  { m with current_y := m.current_y + h }

/-- Center x of a participant's lifeline; modelled from the spec: the lifeline
descends vertically from the participant header (§4.2.9), so its x is the
participant's center. -/
def DiagramMetrics.lifeline_x (m : DiagramMetrics) (p : String)
    (c : SequenceLayoutConfig) : ℚ :=
  match alist_get m.participants p with
  | some pm => pm.center_x
  | none => c.margin

/-- Center x of a participant, if placed. -/
def DiagramMetrics.participant_center_x (m : DiagramMetrics) (p : String) :
    Option ℚ :=
  (alist_get m.participants p).map (fun pm => pm.center_x)

/-- `activate(p, at_y)` of §4.2.3: push an entry with `level = depth + 1`. -/
def DiagramMetrics.activate_at (m : DiagramMetrics) (p : String) (y : ℚ) :
    DiagramMetrics :=
  let stack := (alist_get m.activation_stacks p).getD []
  let entry : ActivationInfo := ⟨p, stack.length + 1, y⟩
  { m with activation_stacks := alist_put m.activation_stacks p (entry :: stack) }

/-- `activate(p)` without an explicit y: the engine records each message's y in
`last_message_y` "for subsequent activations" (engine comment), so an explicit
`activate` statement opens at that y. -/
def DiagramMetrics.activate (m : DiagramMetrics) (p : String) : DiagramMetrics :=
  m.activate_at p m.last_message_y

/-- `deactivate(p)` of §4.2.3: pop one entry and emit the completed activation
`(entry, end_y = current_y)`; with an empty stack nothing happens. -/
def DiagramMetrics.deactivate (m : DiagramMetrics) (p : String) : DiagramMetrics :=
  match (alist_get m.activation_stacks p).getD [] with
  | [] => m
  | entry :: rest =>
      { m with
        activation_stacks := alist_put m.activation_stacks p rest,
        completed_activations := m.completed_activations ++ [(entry, m.current_y)] }

/-- On diagram end any open activations are closed at the given y (§4.2.3);
stacks are drained in participant insertion order, top first. -/
def DiagramMetrics.finalize_activations (m : DiagramMetrics) (at_y : ℚ) :
    DiagramMetrics :=
  { m with
    completed_activations := m.completed_activations ++
      m.activation_stacks.flatMap (fun s => s.2.map (fun e => (e, at_y))),
    activation_stacks := [] }

/-- Rust `str::matches(pat).count()` for the two patterns the engine uses
(`"\n"` and the literal backslash-n); neither pattern can overlap itself, so
counting prefix matches at every tail equals Rust's non-overlapping count. -/
def count_matches (s pat : String) : Nat :=
  (s.data.tails.filter (fun t => pat.data.isPrefixOf t)).length

/-- Rust `as u32` on the (always nonnegative) y coordinates used in element
ids: truncation to a natural number. -/
def rat_to_u32 (q : ℚ) : Nat := q.floor.toNat

mutual
/-- Recursively collects participants out of one element, from
`collect_participants_from_element_order` in `sequence/engine.rs`. -/
def collect_participants_from_element_order :
    SequenceElement → List String → List String
  | .message msg, order =>
      let order := if order.contains msg.from_ then order else order ++ [msg.from_]
      if order.contains msg.to_ then order else order ++ [msg.to_]
  | .fragment (.mk _ _ sections), order => collect_participants_sections sections order
  | _, order => order

/-- Walks the sections of a fragment for participant collection. -/
def collect_participants_sections :
    List FragmentSectionAst → List String → List String
  | [], order => order
  | .mk _ elems :: rest, order =>
      collect_participants_sections rest (collect_participants_elements elems order)

/-- Walks a list of elements for participant collection. -/
def collect_participants_elements :
    List SequenceElement → List String → List String
  | [], order => order
  | e :: rest, order =>
      collect_participants_elements rest (collect_participants_from_element_order e order)
end

/-- Collects the participant appearance order from all diagram elements, from
`collect_participants_order` in `sequence/engine.rs`. -/
def collect_participants_order (diagram : SequenceDiagram)
    (order : List String) : List String :=
  collect_participants_elements diagram.elements order

/-- Whether an autonumber `Start` or `Resume` appears among the top-level
elements, from `diagram_has_autonumber` in `sequence/engine.rs`. -/
def diagram_has_autonumber (diagram : SequenceDiagram) : Bool :=
  diagram.elements.any (fun e =>
    match e with
    | .autonumberCmd (.Start _) => true
    | .autonumberCmd (.Resume _) => true
    | _ => false)

mutual
/-- Collects one element's message span entry `(start, end, width)`, from
`collect_message_span` in `sequence/engine.rs`. -/
def collect_message_span (participant_order : List String)
    (has_autonumber : Bool) :
    SequenceElement → List (Nat × Nat × ℚ) → List (Nat × Nat × ℚ)
  | .message msg, acc =>
      let text_width := config.message_label_width msg.label
      let autonumber_width : ℚ := if has_autonumber then 45 else 0
      let total_width := text_width + autonumber_width
      match participant_order.findIdx? (fun p => p == msg.from_),
            participant_order.findIdx? (fun p => p == msg.to_) with
      | some from_idx, some to_idx =>
          let start_end := if from_idx < to_idx then (from_idx, to_idx)
                           else (to_idx, from_idx)
          let span := start_end.2 - start_end.1
          if 0 < span then acc ++ [(start_end.1, start_end.2, total_width)] else acc
      | _, _ => acc
  | .ret _, acc => acc
  | .fragment (.mk _ _ sections), acc =>
      collect_span_sections participant_order has_autonumber sections acc
  | _, acc => acc

/-- Walks the sections of a fragment for span collection. -/
def collect_span_sections (participant_order : List String)
    (has_autonumber : Bool) :
    List FragmentSectionAst → List (Nat × Nat × ℚ) → List (Nat × Nat × ℚ)
  | [], acc => acc
  | .mk _ elems :: rest, acc =>
      collect_span_sections participant_order has_autonumber rest
        (collect_span_elements participant_order has_autonumber elems acc)

/-- Walks a list of elements for span collection. -/
def collect_span_elements (participant_order : List String)
    (has_autonumber : Bool) :
    List SequenceElement → List (Nat × Nat × ℚ) → List (Nat × Nat × ℚ)
  | [], acc => acc
  | e :: rest, acc =>
      collect_span_elements participant_order has_autonumber rest
        (collect_message_span participant_order has_autonumber e acc)
end

/-- Collects all message span entries in document order, from
`collect_messages_by_span` in `sequence/engine.rs` (the grouping itself is
applied by the caller). -/
def collect_messages_by_span (diagram : SequenceDiagram)
    (participant_order : List String) (has_autonumber : Bool) :
    List (Nat × Nat × ℚ) :=
  collect_span_elements participant_order has_autonumber diagram.elements []

/-- One step of the spacing fold of `calculate_participant_spacing`: the body
of the `for (start_idx, end_idx, text_width) in messages` loop. -/
def spacing_step (participant_widths : List ℚ) (min_spacing : ℚ)
    (acc : List ℚ × List Nat) (m : Nat × Nat × ℚ) : List ℚ × List Nat :=
  let spacing := acc.1
  let direct_pairs := acc.2
  let start_idx := m.1
  let end_idx := m.2.1
  let text_width := m.2.2
  let required_length := text_width + 20
  if end_idx - start_idx = 1 then
    let half_widths := ((participant_widths.getD start_idx 0) +
      (participant_widths.getD end_idx 0)) / 2
    let required_spacing := max (required_length - half_widths) min_spacing
    (spacing.set start_idx (max (spacing.getD start_idx 0) required_spacing),
     direct_pairs ++ [start_idx])
  else
    let current_spacing_sum : ℚ :=
      ((List.range' start_idx (end_idx - start_idx)).map
        (fun i => spacing.getD i 0)).sum
    let half_start := (participant_widths.getD start_idx 0) / 2
    let half_end := (participant_widths.getD end_idx 0) / 2
    let intermediate_widths : ℚ :=
      ((List.range' (start_idx + 1) (end_idx - (start_idx + 1))).map
        (fun i => participant_widths.getD i 0)).sum
    let total_widths := half_start + intermediate_widths + half_end
    let current_arrow_length := current_spacing_sum + total_widths
    let spacing :=
      if current_arrow_length < required_length then
        spacing.set start_idx
          (spacing.getD start_idx 0 + (required_length - current_arrow_length))
      else spacing
    (spacing, direct_pairs ++ List.range' start_idx (end_idx - start_idx))

/-- Computes the spacing between consecutive participants, from
`calculate_participant_spacing` in `sequence/engine.rs`.  The Rust `BTreeMap`
grouping (ascending span keys, insertion order within a key) is realised by
filtering the document-ordered entry list per span for `span = 0, 1, 2, ...`. -/
def calculate_participant_spacing (diagram : SequenceDiagram)
    (participant_order : List String) (participant_widths : List ℚ) :
    List (String × ℚ) :=
  let n := participant_order.length
  if n < 2 then [] else
  let min_spacing : ℚ := 50
  let spacing : List ℚ := List.replicate (n - 1) min_spacing
  let has_autonumber := diagram_has_autonumber diagram
  let collected := collect_messages_by_span diagram participant_order has_autonumber
  let processed := (List.range n).flatMap
    (fun s => collected.filter (fun m => m.2.1 - m.1 = s))
  let folded :=
    processed.foldl (spacing_step participant_widths min_spacing) (spacing, [])
  let spacing := folded.1
  let direct_pairs := folded.2
  (List.range (n - 1)).map (fun i =>
    let key := (participant_order.getD i "") ++ "_" ++
      (participant_order.getD (i + 1) "")
    let final_spacing :=
      if direct_pairs.contains i then spacing.getD i 0
      else min (spacing.getD i 0) 30
    (key, final_spacing))

/-- Builds a participant header element, from `create_participant_element` in
`sequence/engine.rs`. -/
def create_participant_element (id display_name : String) (bounds : Rect)
    (participant_type : ParticipantType) : LayoutElement :=
  match participant_type with
  | .Actor =>
      .mk ("participant_" ++ id) bounds none [] (.ellipse (some display_name))
  | .Database =>
      .mk ("participant_" ++ id) bounds none [] (.rectangle display_name 10)
  | _ =>
      .mk ("participant_" ++ id) bounds none [] (.rectangle display_name (5 / 2))

/-- The placement loop of `layout_participants`: walks the ordered
`(name, width)` pairs threading the x cursor. -/
def place_participants (participant_names : List (String × String))
    (participant_types : List (String × ParticipantType))
    (spacing_map : List (String × ℚ)) (participants_in_boxes : List String)
    (has_box_titles : Bool) (participant_y : ℚ) :
    List (String × ℚ) → ℚ → DiagramMetrics →
    DiagramMetrics × List LayoutElement × ℚ
  | [], x, m => (m, [], x)
  | (name, width) :: rest, x, m =>
      let display_name := (alist_get participant_names name).getD name
      let ptype := (alist_get participant_types name).getD .Participant
      let center_x := x + width / 2
      let y := if participants_in_boxes.contains name && has_box_titles then
          participant_y
        else if has_box_titles then
          participant_y
        else
          config.margin
      let bounds : Rect := ⟨x, y, width, config.participant_height⟩
      let pm : ParticipantMetrics := ⟨name, display_name, center_x, width, bounds⟩
      let m := { m with participants := alist_put m.participants name pm }
      let element := create_participant_element name display_name bounds ptype
      let x := match rest with
        | (next_name, _) :: _ =>
            let key := name ++ "_" ++ next_name
            let spacing := (alist_get spacing_map key).getD 15
            x + width + spacing
        | [] => x + width
      let out := place_participants participant_names participant_types
        spacing_map participants_in_boxes has_box_titles participant_y rest x m
      (out.1, element :: out.2.1, out.2.2)

/-- The declared-participant collection loop opening `layout_participants`:
appearance order, display names and participant types. -/
def collect_declared_participants (ps : List Participant) :
    List String × List (String × String) × List (String × ParticipantType) :=
  ps.foldl (fun acc participant =>
    let order := acc.1
    let names := acc.2.1
    let types := acc.2.2
    let name := participant.alias_.getD participant.name
    let display_name := participant.name
    if order.contains name then acc
    else (order ++ [name], names ++ [(name, display_name)],
          types ++ [(name, participant.ptype)])) ([], [], [])

/-- Places all participants and records their metrics, from
`layout_participants` in `sequence/engine.rs`. -/
def layout_participants (diagram : SequenceDiagram) (metrics : DiagramMetrics) :
    DiagramMetrics × List LayoutElement :=
  let collected := collect_declared_participants diagram.participants
  let participant_names := collected.2.1
  let participant_types := collected.2.2
  let participant_order := collect_participants_order diagram collected.1
  let participants_in_boxes := diagram.boxes.flatMap (fun b => b.participants)
  let has_box_titles := diagram.boxes.any (fun b => b.title.isSome)
  let participant_y := if has_box_titles then
      config.margin + config.box_title_height
    else config.margin
  let participant_widths := participant_order.map (fun name =>
    let display_name := (alist_get participant_names name).getD name
    config.participant_width_for_name display_name)
  let spacing_map :=
    calculate_participant_spacing diagram participant_order participant_widths
  let placed := place_participants participant_names participant_types
    spacing_map participants_in_boxes has_box_titles participant_y
    (participant_order.zip participant_widths) config.margin metrics
  ({ placed.1 with max_x := placed.2.2 }, placed.2.1)

/-- Builds the background rectangles for `box` groupings, from `layout_boxes`
in `sequence/engine.rs` (the `f64::MAX`/`MIN` running bounds are modelled as an
`Option` accumulator). -/
def layout_boxes (diagram : SequenceDiagram) (metrics : DiagramMetrics) :
    List LayoutElement :=
  diagram.boxes.enum.foldl (fun elements ipbox =>
    let i := ipbox.1
    let pbox := ipbox.2
    if pbox.participants.isEmpty then elements
    else
      let found := pbox.participants.foldl (fun acc participant_id =>
        match alist_get metrics.participants participant_id with
        | some pm =>
            let left := pm.center_x - pm.width / 2
            let right := pm.center_x + pm.width / 2
            match acc with
            | none => some (left, right)
            | some (mn, mx) => some (min mn left, max mx right)
        | none => acc) none
      match found with
      | none => elements
      | some (mn, mx) =>
          let padding : ℚ := 10
          let min_x := mn - padding
          let max_x := mx + padding
          let box_y : ℚ := 5
          let properties :=
            (match pbox.title with
             | some title => [("title", title)]
             | none => []) ++
            (match pbox.color with
             | some color => [("color", color)]
             | none => [])
          elements ++ [.mk ("box_" ++ toString i)
            ⟨min_x, box_y, max_x - min_x, 100⟩ pbox.title properties
            .participantBox]) []

/-- Updates the autonumber state machine, from `process_autonumber` in
`sequence/engine.rs`. -/
def process_autonumber (cmd : AutonumberCommand) (metrics : DiagramMetrics) :
    DiagramMetrics :=
  match cmd with
  | .Start params =>
      let a := { metrics.autonumber with enabled := true }
      let a := match params.start with
        | some s => { a with current := s }
        | none => { a with current := 1 }
      let a := match params.step with
        | some s => { a with step := s }
        | none => { a with step := 1 }
      let a := { a with format := params.format }
      { metrics with autonumber := a }
  | .Stop =>
      { metrics with autonumber := { metrics.autonumber with enabled := false } }
  | .Resume params =>
      let a := { metrics.autonumber with enabled := true }
      let a := match params with
        | some p =>
            let a := match p.start with
              | some s => { a with current := s }
              | none => a
            let a := match p.step with
              | some s => { a with step := s }
              | none => a
            if p.format.isSome then { a with format := p.format } else a
        | none => a
      { metrics with autonumber := a }
  | .Inc _ => metrics

/-- Handles a `return` statement, from `layout_return` in
`sequence/engine.rs`: pop the call stack, deactivate the callee and emit a
dashed edge `callee --> caller`; with an empty call stack nothing happens. -/
def layout_return (ret : Return) (metrics : DiagramMetrics) :
    DiagramMetrics × List LayoutElement :=
  match metrics.call_stack with
  | (caller, callee) :: rest =>
      let metrics := { metrics with call_stack := rest }
      let y := metrics.current_y
      let metrics := { metrics with last_message_y := y }
      let metrics := metrics.deactivate callee
      let from_x := metrics.lifeline_x callee config
      let to_x := metrics.lifeline_x caller config
      let points := [Point.mk from_x y, Point.mk to_x y]
      let bounds : Rect :=
        ⟨min from_x to_x, y - 1, max |to_x - from_x| 1, 2⟩
      let edge : LayoutElement := .mk ("return_" ++ callee ++ "_" ++ caller)
        bounds none []
        (.edge points ret.label false true true .Association none none)
      (metrics.advance_y config.message_spacing, [edge])
  | [] => (metrics, [])

/-- Lays out one message, from `layout_message` in `sequence/engine.rs`. -/
def layout_message (msg : Message) (metrics : DiagramMetrics) :
    DiagramMetrics × List LayoutElement :=
  let line_count := count_matches msg.label "\\n" + count_matches msg.label "\n"
  let metrics := if 0 < line_count then
      metrics.advance_y ((line_count : ℚ) * config.line_height)
    else metrics
  let y := metrics.current_y
  let metrics := { metrics with last_message_y := y }
  let from_x := metrics.lifeline_x msg.from_ config
  let to_x := metrics.lifeline_x msg.to_ config
  let metrics := if msg.activate then
      let m := metrics.activate_at msg.to_ y
      { m with call_stack := (msg.from_, msg.to_) :: m.call_stack }
    else metrics
  let metrics := if msg.deactivate then metrics.deactivate msg.from_ else metrics
  let next_out :=
    if metrics.autonumber.enabled then
      let r := metrics.autonumber.next
      (some r.1, { metrics with autonumber := r.2 })
    else (none, metrics)
  let autonumber := next_out.1
  let metrics := next_out.2
  let label := msg.label
  let is_self_message := msg.from_ == msg.to_
  let label_width := if label.isEmpty then 0 else config.message_label_width label
  let points :=
    if is_self_message then
      let loop_width : ℚ := 42
      let loop_height : ℚ := 13
      [Point.mk from_x y, Point.mk (from_x + loop_width) y,
       Point.mk (from_x + loop_width) (y + loop_height),
       Point.mk from_x (y + loop_height)]
    else [Point.mk from_x y, Point.mk to_x y]
  let is_dashed := msg.line_style == LineStyle.Dashed
  let bounds : Rect :=
    if is_self_message then
      let loop_width : ℚ := 42
      let loop_height : ℚ := 13
      let total_width := max loop_width label_width
      ⟨from_x, y - 5, total_width, loop_height + 10⟩
    else
      ⟨min from_x to_x, y - 1, max |to_x - from_x| 1, 2⟩
  let properties := match autonumber with
    | some num => [("autonumber", num)]
    | none => []
  let label_out : Option String :=
    if label.isEmpty && autonumber.isNone then none
    else if label.isEmpty then none
    else some label
  let edge : LayoutElement := .mk ("msg_" ++ msg.from_ ++ "_" ++ msg.to_)
    bounds none properties
    (.edge points label_out false true is_dashed .Association none none)
  let height := if is_self_message then (30 : ℚ) else config.message_spacing
  (metrics.advance_y height, [edge])

/-- Lays out a note, from `layout_note` in `sequence/engine.rs`. -/
def layout_note (note : Note) (metrics : DiagramMetrics) :
    DiagramMetrics × List LayoutElement :=
  let y := metrics.current_y
  let x :=
    if note.anchors.isEmpty then config.margin
    else if note.anchors.length == 1 then
      let anchor_x := (metrics.participant_center_x
        (note.anchors.getD 0 "")).getD config.margin
      match note.position with
      | .Left => anchor_x - config.note_width - 20
      | .Right => anchor_x + 20
      | .Over => anchor_x - config.note_width / 2
      | .Top => anchor_x - config.note_width / 2
      | .Bottom => anchor_x - config.note_width / 2
    else
      let first_x := (metrics.participant_center_x
        (note.anchors.getD 0 "")).getD config.margin
      let last_x := (metrics.participant_center_x
        ((note.anchors.getLast?).getD "")).getD config.margin
      (first_x + last_x) / 2 - config.note_width / 2
  let bounds : Rect := ⟨x, y, config.note_width, config.note_height⟩
  let note_elem : LayoutElement := .mk ("note_" ++ toString (rat_to_u32 y))
    bounds none [] (.rectangle note.text 0)
  (metrics.advance_y (config.note_height + 10), [note_elem])

/-- Handles an explicit activation statement, from `process_activation` in
`sequence/engine.rs`. -/
def process_activation (act : Activation) (metrics : DiagramMetrics) :
    DiagramMetrics :=
  match act.activation_type with
  | .Activate => metrics.activate act.participant
  | .Deactivate => metrics.deactivate act.participant
  | .Destroy => metrics.deactivate act.participant

/-- Lays out a divider, from `layout_divider` in `sequence/engine.rs`. -/
def layout_divider (text : String) (metrics : DiagramMetrics) :
    DiagramMetrics × List LayoutElement :=
  let y := metrics.current_y
  let divider : LayoutElement := .mk ("divider_" ++ toString (rat_to_u32 y))
    ⟨config.margin, y, metrics.max_x - config.margin, config.divider_height⟩
    none [] (.text ("== " ++ text ++ " ==") config.font_size)
  (metrics.advance_y config.divider_height, [divider])

/-- Lays out a delay, from `layout_delay` in `sequence/engine.rs`. -/
def layout_delay (text : Option String) (metrics : DiagramMetrics) :
    DiagramMetrics × List LayoutElement :=
  let y := metrics.current_y
  let t := text.getD "..."
  let delay_elem : LayoutElement := .mk ("delay_" ++ toString (rat_to_u32 y))
    ⟨config.margin, y, metrics.max_x - config.margin, config.delay_height⟩
    none [] (.text t config.font_size)
  (metrics.advance_y config.delay_height, [delay_elem])

/-- Fragment type label string, from the `match frag.fragment_type` in
`layout_fragment`. -/
def fragment_type_str : FragmentType → String
  | .Alt => "alt"
  | .Opt => "opt"
  | .Loop => "loop"
  | .Par => "par"
  | .Break => "break"
  | .Critical => "critical"
  | .Group => "group"
  | .Ref => "ref"

/-- Finds the fragment's x extent over the participants touched by its direct
message children, from `find_fragment_x_bounds` in `sequence/engine.rs` (the
`f64::MAX`/`MIN` sentinels are modelled as an `Option` accumulator; the `none`
case is the Rust `min_x == f64::MAX` full-width fallback). -/
def find_fragment_x_bounds (frag : Fragment) (metrics : DiagramMetrics) :
    ℚ × ℚ :=
  let acc := frag.sections.foldl (fun acc sec =>
    sec.elements.foldl (fun acc elem =>
      match elem with
      | .message msg =>
          let acc := match alist_get metrics.participants msg.from_ with
            | some participant =>
                let left := participant.center_x - participant.width / 2
                let right := participant.center_x + participant.width / 2
                match acc with
                | none => some (left, right)
                | some (mn, mx) => some (min mn left, max mx right)
            | none => acc
          match alist_get metrics.participants msg.to_ with
          | some participant =>
              let left := participant.center_x - participant.width / 2
              let right := participant.center_x + participant.width / 2
              match acc with
              | none => some (left, right)
              | some (mn, mx) => some (min mn left, max mx right)
          | none => acc
      | _ => acc) acc) none
  match acc with
  | none => (config.margin, metrics.max_x)
  | some (mn, mx) => (mn, mx)

mutual
/-- Dispatches one diagram element, from `layout_element` in
`sequence/engine.rs`. -/
def layout_element : SequenceElement → DiagramMetrics →
    DiagramMetrics × List LayoutElement
  | .message msg, m => layout_message msg m
  | .fragment frag, m => layout_fragment frag m
  | .note n, m => layout_note n m
  | .activation act, m => (process_activation act m, [])
  | .divider text, m => layout_divider text m
  | .delay text, m => layout_delay text m
  | .space height, m => (m.advance_y height, [])
  | .reference, m => (m, [])
  | .autonumberCmd cmd, m => (process_autonumber cmd m, [])
  | .ret r, m => layout_return r m

/-- Lays out a fragment frame, from `layout_fragment` in
`sequence/engine.rs`. -/
def layout_fragment : Fragment → DiagramMetrics →
    DiagramMetrics × List LayoutElement
  | frag@(.mk ftype condition sections), metrics =>
      let start_y := metrics.current_y
      let metrics := metrics.advance_y (config.fragment_header_height + 26)
      let out := layout_sections_go sections true metrics
      let metrics := out.1
      let layout_sections_out := out.2
      let end_y := metrics.current_y + config.fragment_padding + 5
      let metrics := { metrics with current_y := end_y }
      let metrics := metrics.advance_y 15
      let xb := find_fragment_x_bounds frag metrics
      let min_x := xb.1
      let max_x := xb.2
      let fragment_bounds : Rect := ⟨min_x - config.fragment_padding, start_y,
        max_x - min_x + config.fragment_padding * 2, end_y - start_y⟩
      let ft := fragment_type_str ftype
      let layout_sections_out :=
        match layout_sections_out with
        | .mk none s e ch :: rest =>
            if condition.isSome then FragmentSection.mk condition s e ch :: rest
            else FragmentSection.mk none s e ch :: rest
        | other => other
      (metrics, [.mk ("fragment_" ++ ft) fragment_bounds none []
        (.fragment ft layout_sections_out)])

/-- Walks fragment sections: the `for (i, section) in frag.sections` loop of
`layout_fragment`, with the 43-unit separator before every non-first
section. -/
def layout_sections_go : List FragmentSectionAst → Bool → DiagramMetrics →
    DiagramMetrics × List FragmentSection
  | [], _, metrics => (metrics, [])
  | .mk condition elems :: rest, is_first, metrics =>
      let metrics := if is_first then metrics else metrics.advance_y 43
      let section_start_y := metrics.current_y
      let inner := layout_elements_list elems metrics
      let metrics := inner.1
      let section_elements := inner.2
      let section_end_y := metrics.current_y
      let tail_out := layout_sections_go rest false metrics
      (tail_out.1,
       FragmentSection.mk condition section_start_y section_end_y
         section_elements :: tail_out.2)

/-- Lays out a list of elements in order into one element vector: the element
loop shared by the top level of `layout` and the section bodies. -/
def layout_elements_list : List SequenceElement → DiagramMetrics →
    DiagramMetrics × List LayoutElement
  | [], metrics => (metrics, [])
  | e :: rest, metrics =>
      let head_out := layout_element e metrics
      let tail_out := layout_elements_list rest head_out.1
      (tail_out.1, head_out.2 ++ tail_out.2)
end

/-- Emits the completed activation rectangles, from `add_activations` in
`sequence/engine.rs`. -/
def add_activations (metrics : DiagramMetrics) : List LayoutElement :=
  metrics.completed_activations.enum.foldl (fun elements entry =>
    let i := entry.1
    let info := entry.2.1
    let end_y := entry.2.2
    match alist_get metrics.participants info.participant with
    | some participant =>
        let offset := ((info.level : ℚ) - 1) * config.activation_width / 2
        let x := participant.center_x - config.activation_width / 2 + offset
        let height := end_y - info.start_y
        let height := max height 10
        elements ++ [.mk ("activation_" ++ info.participant ++ "_" ++ toString i)
          ⟨x, info.start_y, config.activation_width, height⟩ none [] .activation]
    | none => elements) []

/-- Emits one dashed lifeline per participant, from `add_lifelines` in
`sequence/engine.rs`. -/
def add_lifelines (metrics : DiagramMetrics) : List LayoutElement :=
  let footer_y := metrics.current_y - 11
  let end_y := footer_y
  metrics.participants.map (fun p =>
    let id := p.1
    let participant := p.2
    let start_y := participant.header_bounds.y + config.participant_height
    LayoutElement.mk ("lifeline_" ++ id)
      ⟨participant.center_x - 1 / 2, start_y, 1, end_y - start_y⟩ none []
      (.edge [Point.mk participant.center_x start_y,
              Point.mk participant.center_x end_y]
        none false false true .Link none none))

/-- Emits one footer rectangle per participant, from `add_participant_footers`
in `sequence/engine.rs`. -/
def add_participant_footers (metrics : DiagramMetrics) : List LayoutElement :=
  let y := metrics.current_y - 11
  metrics.participants.map (fun p =>
    let id := p.1
    let participant := p.2
    LayoutElement.mk ("footer_" ++ id)
      ⟨participant.center_x - participant.width / 2, y, participant.width,
       config.participant_height⟩ none []
      (.rectangle participant.display_name (5 / 2)))

mutual
/-- Accumulates the message-text overflow of one element, from
`check_element_text_overflow` in `sequence/engine.rs`; the accumulator is
`(max_right, max_left_overflow)` and the `f64::MAX`/`MIN` folds over the
participant map are modelled as `Option` minima/maxima (they are `none` only
when the participant map is empty, in which case the Rust sentinel comparisons
are unreachable for laid-out messages: every message endpoint was collected
into the map). -/
def check_element_text_overflow (metrics : DiagramMetrics) :
    SequenceElement → ℚ × ℚ → ℚ × ℚ
  | .message msg, acc =>
      let max_right := acc.1
      let max_left_overflow := acc.2
      let is_self_message := msg.from_ == msg.to_
      if is_self_message then
        match alist_get metrics.participants msg.from_ with
        | some pm =>
            let loop_width : ℚ := 40
            let text_offset : ℚ := 5
            let text_width := config.message_label_width msg.label
            let right_edge := pm.center_x + loop_width + text_offset + text_width
            (max max_right right_edge, max_left_overflow)
        | none => (max_right, max_left_overflow)
      else
        let from_x := metrics.lifeline_x msg.from_ config
        let to_x := metrics.lifeline_x msg.to_ config
        let left_x := min from_x to_x
        let text_start := left_x + 5
        let text_width := config.message_label_width msg.label
        let text_end := text_start + text_width
        let max_right := max max_right text_end
        let min_x := metrics.participants.foldl (fun acc p =>
          let v := p.2.center_x - p.2.width / 2
          match acc with
          | none => some v
          | some mn => some (min mn v)) none
        match min_x with
        | some mn =>
            if text_start < mn then
              (max_right, max max_left_overflow (mn - text_start))
            else (max_right, max_left_overflow)
        | none => (max_right, max_left_overflow)
  | .fragment (.mk _ _ sections), acc =>
      check_overflow_sections metrics sections acc
  | .ret r, acc =>
      let max_right := acc.1
      let max_left_overflow := acc.2
      match r.label with
      | some label =>
          let text_width := config.message_label_width label
          let current_max_x := metrics.participants.foldl (fun acc p =>
            let v := p.2.center_x + p.2.width / 2
            match acc with
            | none => some v
            | some mx => some (max mx v)) none
          match current_max_x with
          | some mx => (max max_right (mx + text_width), max_left_overflow)
          | none => (max_right, max_left_overflow)
      | none => (max_right, max_left_overflow)
  | _, acc => acc

/-- Walks fragment sections for overflow accumulation. -/
def check_overflow_sections (metrics : DiagramMetrics) :
    List FragmentSectionAst → ℚ × ℚ → ℚ × ℚ
  | [], acc => acc
  | .mk _ elems :: rest, acc =>
      check_overflow_sections metrics rest
        (check_overflow_elements metrics elems acc)

/-- Walks an element list for overflow accumulation. -/
def check_overflow_elements (metrics : DiagramMetrics) :
    List SequenceElement → ℚ × ℚ → ℚ × ℚ
  | [], acc => acc
  | e :: rest, acc =>
      check_overflow_elements metrics rest
        (check_element_text_overflow metrics e acc)
end

/-- Widens the result bounds for message text that sticks out, from
`adjust_bounds_for_message_text` in `sequence/engine.rs`. -/
def adjust_bounds_for_message_text (diagram : SequenceDiagram)
    (metrics : DiagramMetrics) (result : LayoutResult) : LayoutResult :=
  let start : ℚ × ℚ := (result.bounds.x + result.bounds.width, 0)
  let acc := check_overflow_elements metrics diagram.elements start
  let max_right := acc.1
  let max_left_overflow := acc.2
  let current_right := result.bounds.x + result.bounds.width
  let bounds := result.bounds
  let bounds := if current_right < max_right then
      { bounds with width := max_right - bounds.x + 5 }
    else bounds
  let bounds := if 0 < max_left_overflow then
      { bounds with x := bounds.x - (max_left_overflow + 5),
                    width := bounds.width + max_left_overflow + 5 }
    else bounds
  { result with bounds := bounds }

/-- The whole sequence layout pipeline, from `SequenceLayoutEngine::layout` in
`sequence/engine.rs`: participants, boxes, top-level elements, closing open
activations, lifelines, activation rectangles, footers, box-height fixup, box
prepending, bounds, text-overflow widening. -/
def layout (diagram : SequenceDiagram) : LayoutResult :=
  let metrics := DiagramMetrics.new
  let p := layout_participants diagram metrics
  let metrics := p.1
  let elements := p.2
  let box_elements := layout_boxes diagram metrics
  let first_participant_y :=
    match metrics.participants with
    | q :: _ => q.2.header_bounds.y
    | [] => config.margin
  let metrics := { metrics with
    current_y := first_participant_y + config.participant_height + 30 }
  let top := layout_elements_list diagram.elements metrics
  let metrics := top.1
  let elements := elements ++ top.2
  let metrics := metrics.finalize_activations metrics.current_y
  let elements := elements ++ add_lifelines metrics
  let elements := elements ++ add_activations metrics
  let elements := elements ++ add_participant_footers metrics
  let footer_y := metrics.current_y - 11
  let total_height := footer_y + config.participant_height + config.margin
  let box_elements := box_elements.map (fun el =>
    el.with_bounds { el.bounds with height := total_height - el.bounds.y - 5 })
  let final_elements := box_elements ++ elements
  let result : LayoutResult := { elements := final_elements, bounds := ⟨0, 0, 0, 0⟩ }
  let result := result.calculate_bounds
  adjust_bounds_for_message_text diagram metrics result

/-- The activation stack of one participant (empty when never activated). -/
def DiagramMetrics.stack_of (m : DiagramMetrics) (p : String) :
    List ActivationInfo :=
  (alist_get m.activation_stacks p).getD []

lemma alist_get_put {α : Type} (l : List (String × α)) (k : String) (v : α) :
    alist_get (alist_put l k v) k = some v := by
  induction l with
  | nil => simp [alist_put, alist_get]
  | cons h t ih =>
      obtain ⟨k', v'⟩ := h
      by_cases hk : k' = k <;> simp [alist_put, alist_get, hk, ih]

lemma alist_get_put_ne {α : Type} (l : List (String × α)) (k k' : String)
    (v : α) (h : k ≠ k') :
    alist_get (alist_put l k v) k' = alist_get l k' := by
  induction l with
  | nil => simp [alist_put, alist_get, h]
  | cons hd t ih =>
      obtain ⟨k'', v''⟩ := hd
      by_cases hk : k'' = k <;> simp [alist_put, alist_get, hk, ih]
      · subst hk; simp [h]

@[simp] lemma advance_y_autonumber (m : DiagramMetrics) (h : ℚ) :
    (m.advance_y h).autonumber = m.autonumber := rfl

@[simp] lemma advance_y_call_stack (m : DiagramMetrics) (h : ℚ) :
    (m.advance_y h).call_stack = m.call_stack := rfl

@[simp] lemma advance_y_participants (m : DiagramMetrics) (h : ℚ) :
    (m.advance_y h).participants = m.participants := rfl

@[simp] lemma advance_y_activation_stacks (m : DiagramMetrics) (h : ℚ) :
    (m.advance_y h).activation_stacks = m.activation_stacks := rfl

@[simp] lemma advance_y_current_y (m : DiagramMetrics) (h : ℚ) :
    (m.advance_y h).current_y = m.current_y + h := rfl

@[simp] lemma advance_y_stack_of (m : DiagramMetrics) (h : ℚ) (p : String) :
    (m.advance_y h).stack_of p = m.stack_of p := rfl

@[simp] lemma activate_at_autonumber (m : DiagramMetrics) (p : String) (y : ℚ) :
    (m.activate_at p y).autonumber = m.autonumber := rfl

@[simp] lemma activate_at_participants (m : DiagramMetrics) (p : String) (y : ℚ) :
    (m.activate_at p y).participants = m.participants := rfl

@[simp] lemma activate_at_call_stack (m : DiagramMetrics) (p : String) (y : ℚ) :
    (m.activate_at p y).call_stack = m.call_stack := rfl

@[simp] lemma activate_at_current_y (m : DiagramMetrics) (p : String) (y : ℚ) :
    (m.activate_at p y).current_y = m.current_y := rfl

@[simp] lemma deactivate_autonumber (m : DiagramMetrics) (p : String) :
    (m.deactivate p).autonumber = m.autonumber := by
  unfold DiagramMetrics.deactivate; split <;> rfl

@[simp] lemma deactivate_call_stack (m : DiagramMetrics) (p : String) :
    (m.deactivate p).call_stack = m.call_stack := by
  unfold DiagramMetrics.deactivate; split <;> rfl

@[simp] lemma deactivate_participants (m : DiagramMetrics) (p : String) :
    (m.deactivate p).participants = m.participants := by
  unfold DiagramMetrics.deactivate; split <;> rfl

@[simp] lemma deactivate_current_y (m : DiagramMetrics) (p : String) :
    (m.deactivate p).current_y = m.current_y := by
  unfold DiagramMetrics.deactivate; split <;> rfl

@[simp] lemma lifeline_x_deactivate (m : DiagramMetrics) (p q : String)
    (c : SequenceLayoutConfig) :
    (m.deactivate p).lifeline_x q c = m.lifeline_x q c := by
  unfold DiagramMetrics.lifeline_x
  rw [deactivate_participants]

lemma deactivate_stack_of (m : DiagramMetrics) (p : String) :
    (m.deactivate p).stack_of p = (m.stack_of p).tail := by
  unfold DiagramMetrics.deactivate DiagramMetrics.stack_of
  split
  · next heq => rw [heq]; rfl
  · next entry rest heq => simp [alist_get_put, heq]

lemma deactivate_completed (m : DiagramMetrics) (p : String)
    (entry : ActivationInfo) (rest : List ActivationInfo)
    (h : m.stack_of p = entry :: rest) :
    (m.deactivate p).completed_activations
      = m.completed_activations ++ [(entry, m.current_y)] := by
  unfold DiagramMetrics.deactivate
  unfold DiagramMetrics.stack_of at h
  split
  · next heq => rw [heq] at h; cases h
  · next e r heq => rw [heq] at h; cases h; rfl

/-- C4: a message with `activate=true` pushes `(from, to)` onto the call
stack; a `Return` with a nonempty call stack pops the top pair `(caller,
callee)`, emits exactly one dashed edge running from the callee's lifeline to
the caller's lifeline carrying the Return's label, and pops one entry off the
callee's activation stack; with an empty call stack the Return emits nothing
and leaves the metrics unchanged. -/
theorem C4_return_resolution :
    (∀ (msg : Message) (m : DiagramMetrics), msg.activate = true →
      (layout_message msg m).1.call_stack
        = (msg.from_, msg.to_) :: m.call_stack) ∧
    (∀ (r : Return) (m : DiagramMetrics) (caller callee : String)
        (rest : List (String × String)),
      m.call_stack = (caller, callee) :: rest →
      (layout_return r m).1.call_stack = rest ∧
      (layout_return r m).2
        = [.mk ("return_" ++ callee ++ "_" ++ caller)
            ⟨min (m.lifeline_x callee config) (m.lifeline_x caller config),
             m.current_y - 1,
             max |m.lifeline_x caller config - m.lifeline_x callee config| 1, 2⟩
            none []
            (.edge [Point.mk (m.lifeline_x callee config) m.current_y,
                    Point.mk (m.lifeline_x caller config) m.current_y]
              r.label false true true .Association none none)] ∧
      (layout_return r m).1.stack_of callee = (m.stack_of callee).tail) ∧
    (∀ (r : Return) (m : DiagramMetrics), m.call_stack = [] →
      layout_return r m = (m, [])) := by
  refine ⟨?_, ?_, ?_⟩
  · intro msg m hact
    unfold layout_message
    simp only [hact, if_true]
    split <;> split <;> split <;> simp
  · intro r m caller callee rest hstack
    unfold layout_return
    rw [hstack]
    refine ⟨by simp, ?_, ?_⟩
    · simp [DiagramMetrics.lifeline_x]
    · have key := deactivate_stack_of
        ({ m with call_stack := rest, last_message_y := m.current_y } :
          DiagramMetrics) callee
      simpa [DiagramMetrics.stack_of] using key
  · intro r m hstack
    unfold layout_return
    rw [hstack]

/-- Concrete message with the `++` activation shortcut, for witnesses. -/
def c4_msg : Message :=
  ⟨"Alice", "Bob", "req", .Solid, .Normal, true, false, false, false⟩

/-- Concrete metrics with one pending call, for witnesses. -/
def c4_m : DiagramMetrics :=
  { DiagramMetrics.new with call_stack := [("Alice", "Bob")] }

/-- Witness for `C4_return_resolution` on a concrete activate-message, a
Return with a pending call, and a Return on the empty call stack. -/
theorem C4_return_resolution_witness :
    (c4_msg.activate = true ∧
     c4_m.call_stack = ("Alice", "Bob") :: [] ∧
     DiagramMetrics.new.call_stack = []) ∧
    (layout_message c4_msg DiagramMetrics.new).1.call_stack
      = (c4_msg.from_, c4_msg.to_) :: DiagramMetrics.new.call_stack ∧
    ((layout_return ⟨some "done"⟩ c4_m).1.call_stack = [] ∧
     (layout_return ⟨some "done"⟩ c4_m).2
       = [.mk ("return_" ++ "Bob" ++ "_" ++ "Alice")
           ⟨min (c4_m.lifeline_x "Bob" config) (c4_m.lifeline_x "Alice" config),
            c4_m.current_y - 1,
            max |c4_m.lifeline_x "Alice" config - c4_m.lifeline_x "Bob" config| 1,
            2⟩
           none []
           (.edge [Point.mk (c4_m.lifeline_x "Bob" config) c4_m.current_y,
                   Point.mk (c4_m.lifeline_x "Alice" config) c4_m.current_y]
             (some "done") false true true .Association none none)] ∧
     (layout_return ⟨some "done"⟩ c4_m).1.stack_of "Bob"
       = (c4_m.stack_of "Bob").tail) ∧
    layout_return ⟨none⟩ DiagramMetrics.new = (DiagramMetrics.new, []) :=
  ⟨⟨rfl, rfl, rfl⟩,
   C4_return_resolution.1 c4_msg DiagramMetrics.new rfl,
   C4_return_resolution.2.1 ⟨some "done"⟩ c4_m "Alice" "Bob" [] rfl,
   C4_return_resolution.2.2 ⟨none⟩ DiagramMetrics.new rfl⟩

/-- C6: with autonumber enabled, a laid-out message carries exactly the
property `autonumber ↦ formatted current number` and the counter advances by
the step (enabled and step preserved); with autonumber disabled the property
map is empty and the state untouched; a Return's synthesized edge never
carries properties; `Stop` only flips `enabled` off; `Resume` flips it on and
applies the optional start/step/format updates. -/
theorem C6_autonumber_machine :
    (∀ (msg : Message) (m : DiagramMetrics), m.autonumber.enabled = true →
      ((layout_message msg m).2.map (fun e => e.properties))
        = [[("autonumber",
             format_autonumber m.autonumber.format m.autonumber.current)]] ∧
      (layout_message msg m).1.autonumber
        = { m.autonumber with current := m.autonumber.current + m.autonumber.step }) ∧
    (∀ (msg : Message) (m : DiagramMetrics), m.autonumber.enabled = false →
      ((layout_message msg m).2.map (fun e => e.properties)) = [[]] ∧
      (layout_message msg m).1.autonumber = m.autonumber) ∧
    (∀ (r : Return) (m : DiagramMetrics),
      ((layout_return r m).2.all (fun e => e.properties.isEmpty)) = true) ∧
    (∀ (m : DiagramMetrics),
      (process_autonumber .Stop m).autonumber
        = { m.autonumber with enabled := false }) ∧
    (∀ (m : DiagramMetrics),
      (process_autonumber (.Resume none) m).autonumber
        = { m.autonumber with enabled := true }) ∧
    (∀ (m : DiagramMetrics) (p : AutonumberStart),
      (process_autonumber (.Resume (some p)) m).autonumber
        = { enabled := true,
            current := p.start.getD m.autonumber.current,
            step := p.step.getD m.autonumber.step,
            format := if p.format.isSome then p.format
                      else m.autonumber.format }) := by
  refine ⟨?_, ?_, ?_, ?_, ?_, ?_⟩
  · intro msg m h
    unfold layout_message
    simp [h, AutonumberState.next, LayoutElement.properties,
      apply_ite DiagramMetrics.autonumber, apply_ite DiagramMetrics.current_y,
      apply_ite DiagramMetrics.participants, apply_ite DiagramMetrics.call_stack,
      apply_ite DiagramMetrics.activation_stacks,
      apply_ite DiagramMetrics.completed_activations,
      apply_ite DiagramMetrics.last_message_y, apply_ite DiagramMetrics.max_x]
  · intro msg m h
    unfold layout_message
    simp [h, AutonumberState.next, LayoutElement.properties,
      apply_ite DiagramMetrics.autonumber, apply_ite DiagramMetrics.current_y,
      apply_ite DiagramMetrics.participants, apply_ite DiagramMetrics.call_stack,
      apply_ite DiagramMetrics.activation_stacks,
      apply_ite DiagramMetrics.completed_activations,
      apply_ite DiagramMetrics.last_message_y, apply_ite DiagramMetrics.max_x]
  · intro r m
    unfold layout_return
    split <;> rfl
  · intro m; rfl
  · intro m; rfl
  · intro m p
    obtain ⟨ps, pt, pf⟩ := p
    cases ps <;> cases pt <;> cases pf <;>
      simp [process_autonumber]

/-- Concrete metrics with autonumber enabled at 3 step 2 mask `[00]`, for the
C6 witness. -/
def c6_m : DiagramMetrics :=
  { DiagramMetrics.new with autonumber := ⟨true, 3, 2, some "[00]"⟩ }

/-- Witness for `C6_autonumber_machine` on concrete inputs (enabled metrics,
the freshly-initialised disabled metrics, a Return with a pending call, and a
Resume carrying only a new start). -/
theorem C6_autonumber_machine_witness :
    (c6_m.autonumber.enabled = true ∧
     DiagramMetrics.new.autonumber.enabled = false) ∧
    (((layout_message (Message.new "Alice" "Bob" "hi") c6_m).2.map
        (fun e => e.properties))
      = [[("autonumber",
           format_autonumber c6_m.autonumber.format c6_m.autonumber.current)]] ∧
     (layout_message (Message.new "Alice" "Bob" "hi") c6_m).1.autonumber
       = { c6_m.autonumber with
           current := c6_m.autonumber.current + c6_m.autonumber.step }) ∧
    (((layout_message (Message.new "Alice" "Bob" "hi")
        DiagramMetrics.new).2.map (fun e => e.properties)) = [[]] ∧
     (layout_message (Message.new "Alice" "Bob" "hi")
        DiagramMetrics.new).1.autonumber = DiagramMetrics.new.autonumber) ∧
    ((layout_return ⟨some "done"⟩ c4_m).2.all
        (fun e => e.properties.isEmpty)) = true ∧
    (process_autonumber .Stop c6_m).autonumber
      = { c6_m.autonumber with enabled := false } ∧
    (process_autonumber (.Resume none) DiagramMetrics.new).autonumber
      = { DiagramMetrics.new.autonumber with enabled := true } ∧
    (process_autonumber (.Resume (some ⟨some 7, none, none⟩))
        DiagramMetrics.new).autonumber
      = { enabled := true,
          current := (some 7).getD DiagramMetrics.new.autonumber.current,
          step := (none : Option Nat).getD DiagramMetrics.new.autonumber.step,
          format := if (none : Option String).isSome then none
                    else DiagramMetrics.new.autonumber.format } :=
  ⟨⟨rfl, rfl⟩,
   C6_autonumber_machine.1 (Message.new "Alice" "Bob" "hi") c6_m rfl,
   C6_autonumber_machine.2.1 (Message.new "Alice" "Bob" "hi")
     DiagramMetrics.new rfl,
   C6_autonumber_machine.2.2.1 ⟨some "done"⟩ c4_m,
   C6_autonumber_machine.2.2.2.1 c6_m,
   C6_autonumber_machine.2.2.2.2.1 DiagramMetrics.new,
   C6_autonumber_machine.2.2.2.2.2 DiagramMetrics.new ⟨some 7, none, none⟩⟩

/-- Whether an element is an activation rectangle. -/
def is_activation_elem (e : LayoutElement) : Bool :=
  match e.element_type with
  | .activation => true
  | _ => false

/-- Whether an element is a lifeline: the engine's lifelines are the only
`Link`-typed edges it emits. -/
def is_lifeline_elem (e : LayoutElement) : Bool :=
  match e.element_type with
  | .edge _ _ _ _ _ .Link _ _ => true
  | _ => false

lemma isPrefixOf_append_self (l₁ l₂ : List Char) :
    l₁.isPrefixOf (l₁ ++ l₂) = true := by
  induction l₁ with
  | nil => cases l₂ <;> rfl
  | cons a as ih => simp [List.isPrefixOf, ih]

lemma str_starts_with_append (a b : String) :
    str_starts_with (a ++ b) a = true := by
  unfold str_starts_with
  have : (a ++ b).data = a.data ++ b.data := by
    cases a; cases b; rfl
  rw [this]
  exact isPrefixOf_append_self _ _

lemma foldl_append_invariant {α β : Type} (P : β → Prop)
    (step : List β → α → List β)
    (hstep : ∀ acc x, ∀ e ∈ step acc x, e ∈ acc ∨ P e) :
    ∀ (l : List α) (acc : List β), (∀ e ∈ acc, P e) →
      ∀ e ∈ l.foldl step acc, P e := by
  intro l
  induction l with
  | nil => intro acc hacc e he; exact hacc e he
  | cons x xs ih =>
      intro acc hacc e he
      refine ih (step acc x) ?_ e he
      intro e' he'
      rcases hstep acc x e' he' with h | h
      · exact hacc e' h
      · exact h

lemma layout_boxes_types (d : SequenceDiagram) (m : DiagramMetrics) :
    ∀ e ∈ layout_boxes d m, e.element_type = .participantBox := by
  unfold layout_boxes
  refine foldl_append_invariant _ _ ?_ _ _ (by intro e h; cases h)
  intro acc x e he
  rcases x with ⟨i, pbox⟩
  simp only at he
  split at he
  · exact Or.inl he
  · split at he
    · exact Or.inl he
    · next mn mx _ =>
        rcases List.mem_append.mp he with h | h
        · exact Or.inl h
        · right
          simp at h
          subst h
          rfl

lemma create_participant_element_id (name display_name : String) (b : Rect)
    (t : ParticipantType) :
    str_starts_with (create_participant_element name display_name b t).id
      "participant_" = true := by
  cases t <;>
    simp [create_participant_element, LayoutElement.id,
      show ("participant_" ++ name : String)
          = ("participant_" : String) ++ name from rfl,
      str_starts_with_append]

lemma place_participants_ids (pn : List (String × String))
    (pt : List (String × ParticipantType)) (sm : List (String × ℚ))
    (pib : List String) (hbt : Bool) (py : ℚ) :
    ∀ (rem : List (String × ℚ)) (x : ℚ) (m : DiagramMetrics),
      ∀ e ∈ (place_participants pn pt sm pib hbt py rem x m).2.1,
        str_starts_with e.id "participant_" = true := by
  intro rem
  induction rem with
  | nil => intro x m e he; cases he
  | cons hd tl ih =>
      intro x m e he
      obtain ⟨name, width⟩ := hd
      simp only [place_participants] at he
      rcases List.mem_cons.mp he with h | h
      · subst h; exact create_participant_element_id _ _ _ _
      · exact ih _ _ e h

lemma add_lifelines_kinds (m : DiagramMetrics) :
    ∀ e ∈ add_lifelines m, is_lifeline_elem e = true := by
  unfold add_lifelines
  intro e he
  rcases List.mem_map.mp he with ⟨p, _, hpe⟩
  subst hpe
  rfl

lemma add_activations_kinds (m : DiagramMetrics) :
    ∀ e ∈ add_activations m, e.element_type = .activation := by
  unfold add_activations
  refine foldl_append_invariant _ _ ?_ _ _ (by intro e h; cases h)
  intro acc x e he
  simp only at he
  split at he
  · rcases List.mem_append.mp he with h | h
    · exact Or.inl h
    · right
      simp at h
      subst h
      rfl
  · exact Or.inl he

lemma add_participant_footers_ids (m : DiagramMetrics) :
    ∀ e ∈ add_participant_footers m,
      str_starts_with e.id "footer_" = true := by
  unfold add_participant_footers
  intro e he
  rcases List.mem_map.mp he with ⟨p, _, hpe⟩
  subst hpe
  simp only [LayoutElement.id]
  rw [show ("footer_" ++ p.1 : String) = ("footer_" : String) ++ p.1 from rfl]
  exact str_starts_with_append _ _

lemma with_bounds_element_type (e : LayoutElement) (b : Rect) :
    (e.with_bounds b).element_type = e.element_type := by
  cases e; rfl

@[simp] lemma calculate_bounds_elements (r : LayoutResult) :
    r.calculate_bounds.elements = r.elements := by
  unfold LayoutResult.calculate_bounds; split <;> rfl

@[simp] lemma adjust_bounds_elements (d : SequenceDiagram) (m : DiagramMetrics)
    (r : LayoutResult) :
    (adjust_bounds_for_message_text d m r).elements = r.elements := rfl

/-- The metrics state right before the top-level element walk of `layout`. -/
def lp_mid (d : SequenceDiagram) : DiagramMetrics :=
  let p := layout_participants d DiagramMetrics.new
  let first_participant_y :=
    match p.1.participants with
    | q :: _ => q.2.header_bounds.y
    | [] => config.margin
  { p.1 with
    current_y := first_participant_y + config.participant_height + 30 }

/-- The metrics state after the top-level walk and activation finalization. -/
def lp_final_metrics (d : SequenceDiagram) : DiagramMetrics :=
  ((layout_elements_list d.elements (lp_mid d)).1).finalize_activations
    ((layout_elements_list d.elements (lp_mid d)).1).current_y

/-- The height-fixed box background elements of `layout`. -/
def lp_boxes (d : SequenceDiagram) : List LayoutElement :=
  let total_height := (lp_final_metrics d).current_y - 11 +
    config.participant_height + config.margin
  (layout_boxes d (layout_participants d DiagramMetrics.new).1).map
    (fun el => el.with_bounds
      { el.bounds with height := total_height - el.bounds.y - 5 })

/-- The element list of `layout` is literally the six-segment concatenation
the engine builds. -/
lemma layout_elements_decomp (d : SequenceDiagram) :
    (layout d).elements
      = lp_boxes d ++ ((layout_participants d DiagramMetrics.new).2
        ++ ((layout_elements_list d.elements (lp_mid d)).2
        ++ (add_lifelines (lp_final_metrics d)
        ++ (add_activations (lp_final_metrics d)
        ++ add_participant_footers (lp_final_metrics d))))) := by
  unfold layout lp_boxes lp_final_metrics lp_mid
  simp [List.append_assoc]

/-- C1 (amended): the element list decomposes into six contiguous segments:
box rectangles, participant headers, top-level elements in source order,
**lifeline edges, then activation rectangles** (the claim has these two
swapped), then footers. -/
theorem C1_emission_order (diagram : SequenceDiagram) :
    ∃ (boxes participants top lifelines activations footers :
        List LayoutElement) (m0 : DiagramMetrics),
      (layout diagram).elements
        = boxes ++ participants ++ top ++ lifelines ++ activations ++ footers ∧
      (∀ e ∈ boxes, e.element_type = .participantBox) ∧
      (∀ e ∈ participants, str_starts_with e.id "participant_" = true) ∧
      top = (layout_elements_list diagram.elements m0).2 ∧
      (∀ e ∈ lifelines, is_lifeline_elem e = true) ∧
      (∀ e ∈ activations, e.element_type = .activation) ∧
      (∀ e ∈ footers, str_starts_with e.id "footer_" = true) := by
  refine ⟨lp_boxes diagram, (layout_participants diagram DiagramMetrics.new).2,
    (layout_elements_list diagram.elements (lp_mid diagram)).2,
    add_lifelines (lp_final_metrics diagram),
    add_activations (lp_final_metrics diagram),
    add_participant_footers (lp_final_metrics diagram),
    lp_mid diagram, ?_, ?_, ?_, rfl, ?_, ?_, ?_⟩
  · rw [layout_elements_decomp]
    simp [List.append_assoc]
  · intro e he
    rcases List.mem_map.mp he with ⟨e', he', hee⟩
    subst hee
    rw [with_bounds_element_type]
    exact layout_boxes_types _ _ e' he'
  · unfold layout_participants
    exact fun e he => place_participants_ids _ _ _ _ _ _ _ _ _ e he
  · exact fun e he => add_lifelines_kinds _ e he
  · exact fun e he => add_activations_kinds _ e he
  · exact fun e he => add_participant_footers_ids _ e he

/-- One-participant diagram with an explicit activate/deactivate pair. -/
def c1_diagram : SequenceDiagram :=
  { participants := [⟨"Alice", none, .Participant⟩],
    elements := [.activation ⟨"Alice", .Activate⟩,
                 .activation ⟨"Alice", .Deactivate⟩],
    boxes := [],
    title := none }

/-- C1 counterexample: on `c1_diagram` the engine emits the lifeline (index 1)
**before** the activation rectangle (index 2), so the claimed order
"... then activation rectangles, then lifeline edges, ..." is false: an
activation rectangle appears after a lifeline edge. -/
theorem C1_order_counterexample :
    ((layout c1_diagram).elements.map
        (fun e => (is_activation_elem e, is_lifeline_elem e)))
      = [(false, false), (false, true), (true, false), (false, false)] ∧
    ((layout c1_diagram).elements.enum.any (fun p =>
        is_lifeline_elem p.2 &&
        ((layout c1_diagram).elements.drop (p.1 + 1)).any
          (fun e => is_activation_elem e))) = true := by
  exact ⟨by decide, by decide⟩

/-- Two messages with the same from/to pair. -/
def c2_diagram : SequenceDiagram :=
  { participants := [⟨"Alice", none, .Participant⟩, ⟨"Bob", none, .Participant⟩],
    elements := [.message (Message.new "Alice" "Bob" "a"),
                 .message (Message.new "Alice" "Bob" "b")],
    boxes := [],
    title := none }

/-- C2 counterexample: two messages with the same from/to pair both get the id
`msg_Alice_Bob` (indices 2 and 3), so the output ids are not pairwise
distinct. -/
theorem C2_duplicate_ids_counterexample :
    ((layout c2_diagram).elements.map LayoutElement.id).get? 2
      = some "msg_Alice_Bob" ∧
    ((layout c2_diagram).elements.map LayoutElement.id).get? 3
      = some "msg_Alice_Bob" ∧
    ¬ ((layout c2_diagram).elements.map LayoutElement.id).Nodup := by
  refine ⟨by decide, by decide, by decide⟩

/-- C2 (amended): ids are a pure function of the input (the layout engine is
deterministic by construction), and an element's id is built from its kind and
endpoints only: a message edge always gets `msg_<from>_<to>` and a note gets
`note_<y>`, so messages sharing a from/to pair (or notes sharing a y) collide
rather than stay distinct. -/
theorem C2_id_formation (msg : Message) (note : Note)
    (m m' : DiagramMetrics) :
    ((layout_message msg m).2.map LayoutElement.id)
      = ["msg_" ++ msg.from_ ++ "_" ++ msg.to_] ∧
    ((layout_note note m').2.map LayoutElement.id)
      = ["note_" ++ toString (rat_to_u32 m'.current_y)] := by
  constructor
  · unfold layout_message
    simp [LayoutElement.id]
  · unfold layout_note
    simp [LayoutElement.id]

lemma foldl_min_le_init (l : List ℚ) : ∀ a : ℚ, l.foldl min a ≤ a := by
  induction l with
  | nil => intro a; simp
  | cons x xs ih =>
      intro a
      exact le_trans (ih (min a x)) (min_le_left a x)

lemma foldl_min_le_mem (l : List ℚ) : ∀ (a x : ℚ), x ∈ l → l.foldl min a ≤ x := by
  induction l with
  | nil => intro a x hx; cases hx
  | cons y ys ih =>
      intro a x hx
      rcases List.mem_cons.mp hx with h | h
      · subst h
        exact le_trans (foldl_min_le_init ys _) (min_le_right a x)
      · exact ih _ x h

lemma le_foldl_max_init (l : List ℚ) : ∀ a : ℚ, a ≤ l.foldl max a := by
  induction l with
  | nil => intro a; simp
  | cons x xs ih =>
      intro a
      exact le_trans (le_max_left a x) (ih (max a x))

lemma le_foldl_max_mem (l : List ℚ) : ∀ (a x : ℚ), x ∈ l → x ≤ l.foldl max a := by
  induction l with
  | nil => intro a x hx; cases hx
  | cons y ys ih =>
      intro a x hx
      rcases List.mem_cons.mp hx with h | h
      · subst h
        exact le_trans (le_max_right a x) (le_foldl_max_init ys _)
      · exact ih _ x h

/-- The tight-union bounds dominate every member element's extent. -/
lemma calculate_bounds_dominates (r : LayoutResult) (e : LayoutElement)
    (he : e ∈ r.elements) :
    e.bounds.width ≤ r.calculate_bounds.bounds.width ∧
    e.bounds.height ≤ r.calculate_bounds.bounds.height := by
  unfold LayoutResult.calculate_bounds
  split
  · next hnil => rw [hnil] at he; cases he
  · next e0 es hcons =>
      rw [hcons] at he
      simp only
      constructor
      · have hmin : (es.map (fun el => el.bounds.x)).foldl min e0.bounds.x
            ≤ e.bounds.x := by
          rcases List.mem_cons.mp he with h | h
          · subst h; exact foldl_min_le_init _ _
          · exact foldl_min_le_mem _ _ _ (List.mem_map_of_mem _ h)
        have hmax : e.bounds.x + e.bounds.width
            ≤ (es.map (fun el => el.bounds.x + el.bounds.width)).foldl max
              (e0.bounds.x + e0.bounds.width) := by
          rcases List.mem_cons.mp he with h | h
          · subst h; exact le_foldl_max_init _ _
          · exact le_foldl_max_mem _ _ _ (List.mem_map_of_mem _ h)
        linarith
      · have hmin : (es.map (fun el => el.bounds.y)).foldl min e0.bounds.y
            ≤ e.bounds.y := by
          rcases List.mem_cons.mp he with h | h
          · subst h; exact foldl_min_le_init _ _
          · exact foldl_min_le_mem _ _ _ (List.mem_map_of_mem _ h)
        have hmax : e.bounds.y + e.bounds.height
            ≤ (es.map (fun el => el.bounds.y + el.bounds.height)).foldl max
              (e0.bounds.y + e0.bounds.height) := by
          rcases List.mem_cons.mp he with h | h
          · subst h; exact le_foldl_max_init _ _
          · exact le_foldl_max_mem _ _ _ (List.mem_map_of_mem _ h)
        linarith

/-- Text-overflow widening never shrinks the width and never touches the
height. -/
lemma adjust_bounds_mono (d : SequenceDiagram) (m : DiagramMetrics)
    (r : LayoutResult) :
    r.bounds.width ≤ (adjust_bounds_for_message_text d m r).bounds.width ∧
    (adjust_bounds_for_message_text d m r).bounds.height = r.bounds.height := by
  unfold adjust_bounds_for_message_text
  simp only
  split
  · next hlt =>
      split
      · next hpos => constructor <;> simp <;> linarith
      · constructor <;> simp <;> linarith
  · split
    · next hpos => constructor <;> simp <;> linarith
    · constructor <;> simp

mutual
/-- Participant collection never loses entries (element form). -/
theorem mem_collect_element (x : String) :
    ∀ (e : SequenceElement) (o : List String), x ∈ o →
      x ∈ collect_participants_from_element_order e o
  | .message msg, o, hx => by
      simp only [collect_participants_from_element_order]
      split <;> split <;> simp [hx]
  | .fragment (.mk ft c sections), o, hx =>
      mem_collect_sections x sections o hx
  | .note n, o, hx => hx
  | .activation a, o, hx => hx
  | .divider t, o, hx => hx
  | .delay t, o, hx => hx
  | .space n, o, hx => hx
  | .reference, o, hx => hx
  | .autonumberCmd c, o, hx => hx
  | .ret r, o, hx => hx

/-- Participant collection never loses entries (section-list form). -/
theorem mem_collect_sections (x : String) :
    ∀ (ss : List FragmentSectionAst) (o : List String), x ∈ o →
      x ∈ collect_participants_sections ss o
  | [], o, hx => hx
  | .mk c elems :: rest, o, hx =>
      mem_collect_sections x rest _ (mem_collect_elements x elems o hx)

/-- Participant collection never loses entries (element-list form). -/
theorem mem_collect_elements (x : String) :
    ∀ (es : List SequenceElement) (o : List String), x ∈ o →
      x ∈ collect_participants_elements es o
  | [], o, hx => hx
  | e :: rest, o, hx =>
      mem_collect_elements x rest _ (mem_collect_element x e o hx)
end

lemma collect_declared_step_nonempty (ps : List Participant) :
    ∀ acc : List String × List (String × String) ×
      List (String × ParticipantType),
    acc.1 ≠ [] →
    (ps.foldl (fun acc participant =>
      let order := acc.1
      let names := acc.2.1
      let types := acc.2.2
      let name := participant.alias_.getD participant.name
      let display_name := participant.name
      if order.contains name then acc
      else (order ++ [name], names ++ [(name, display_name)],
            types ++ [(name, participant.ptype)])) acc).1 ≠ [] := by
  induction ps with
  | nil => intro acc h; exact h
  | cons p rest ih =>
      intro acc h
      simp only [List.foldl_cons]
      split
      · exact ih acc h
      · exact ih _ (by simp)

lemma collect_declared_nonempty (ps : List Participant) (h : ps ≠ []) :
    (collect_declared_participants ps).1 ≠ [] := by
  unfold collect_declared_participants
  cases ps with
  | nil => exact absurd rfl h
  | cons p rest =>
      simp only [List.foldl_cons]
      refine collect_declared_step_nonempty rest _ ?_
      split
      · next hc => simp at hc
      · simp

lemma create_participant_element_bounds (name display_name : String) (b : Rect)
    (t : ParticipantType) :
    (create_participant_element name display_name b t).bounds = b := by
  cases t <;> rfl

lemma participant_width_ge (c : SequenceLayoutConfig) (n : String) :
    (50 : ℚ) ≤ c.participant_width_for_name n :=
  le_max_left _ _

/-- The final element list of `layout` with the exact association the engine
builds. -/
def lp_elements (d : SequenceDiagram) : List LayoutElement :=
  lp_boxes d ++
    (((((layout_participants d DiagramMetrics.new).2 ++
        (layout_elements_list d.elements (lp_mid d)).2) ++
        add_lifelines (lp_final_metrics d)) ++
        add_activations (lp_final_metrics d)) ++
        add_participant_footers (lp_final_metrics d))

/-- `layout` is precisely the bounds pipeline applied to `lp_elements`. -/
lemma layout_eq_pipeline (d : SequenceDiagram) :
    layout d = adjust_bounds_for_message_text d (lp_final_metrics d)
      (LayoutResult.calculate_bounds ⟨lp_elements d, ⟨0, 0, 0, 0⟩⟩) := by
  unfold layout lp_elements lp_boxes lp_final_metrics lp_mid
  rfl

/-- The empty diagram. -/
def c9_empty : SequenceDiagram := SequenceDiagram.new

/-- C9 counterexample: the empty diagram `@startuml\n@enduml` parses (to the
empty rule stream and the empty diagram) but its layout has zero width and
zero height. -/
theorem C9_empty_bounds_counterexample :
    parse_sequence [] = .ok c9_empty ∧
    (layout c9_empty).bounds.width = 0 ∧
    (layout c9_empty).bounds.height = 0 := by
  refine ⟨rfl, ?_⟩
  have h : lp_elements c9_empty = [] := rfl
  rw [layout_eq_pipeline, h]
  simp [adjust_bounds_for_message_text, check_overflow_elements,
    LayoutResult.calculate_bounds]

/-- The placement output opens with the head participant's header element. -/
lemma layout_participants_head (d : SequenceDiagram) (name0 : String)
    (restO : List String)
    (hconsO : collect_participants_order d
      (collect_declared_participants d.participants).1 = name0 :: restO) :
    ∃ e0 rest2, (layout_participants d DiagramMetrics.new).2 = e0 :: rest2 ∧
      (50 : ℚ) ≤ e0.bounds.width ∧
      e0.bounds.height = config.participant_height := by
  unfold layout_participants
  simp only [hconsO, List.map_cons, List.zip_cons_cons, place_participants]
  refine ⟨_, _, rfl, ?_, ?_⟩
  · rw [create_participant_element_bounds]
    exact participant_width_ge config _
  · rw [create_participant_element_bounds]

/-- C9 (amended): whenever the diagram declares at least one participant the
layout bounds are strictly positive; the empty diagram instead yields
width = height = 0. -/
theorem C9_positive_bounds (d : SequenceDiagram) (h : d.participants ≠ []) :
    0 < (layout d).bounds.width ∧ 0 < (layout d).bounds.height := by
  -- the participant order is nonempty
  have horder0 : (collect_declared_participants d.participants).1 ≠ [] :=
    collect_declared_nonempty _ h
  obtain ⟨n0, rest0, hcons0⟩ :=
    List.exists_cons_of_ne_nil horder0
  have hmem : n0 ∈ collect_participants_order d
      (collect_declared_participants d.participants).1 := by
    unfold collect_participants_order
    exact mem_collect_elements n0 d.elements _ (hcons0 ▸ List.mem_cons_self _ _)
  obtain ⟨name0, restO, hconsO⟩ :=
    List.exists_cons_of_ne_nil (List.ne_nil_of_mem hmem)
  obtain ⟨e0, rest2, he0eq, he0w, he0h⟩ :=
    layout_participants_head d name0 restO hconsO
  -- the header element is a member of the final element list
  have hmemFinal : e0 ∈ lp_elements d := by
    unfold lp_elements
    refine List.mem_append_right _ ?_
    refine List.mem_append_left _ ?_
    refine List.mem_append_left _ ?_
    refine List.mem_append_left _ ?_
    refine List.mem_append_left _ ?_
    rw [he0eq]
    exact List.mem_cons_self _ _
  have hdom := calculate_bounds_dominates ⟨lp_elements d, ⟨0, 0, 0, 0⟩⟩ e0 hmemFinal
  have hadj := adjust_bounds_mono d (lp_final_metrics d)
    (LayoutResult.calculate_bounds ⟨lp_elements d, ⟨0, 0, 0, 0⟩⟩)
  rw [layout_eq_pipeline]
  have hph : config.participant_height = 40 := rfl
  constructor
  · linarith [hdom.1, hadj.1, he0w]
  · rw [hadj.2]
    have := hdom.2
    rw [he0h, hph] at this
    linarith

/-- Witness for `C9_positive_bounds` at the one-participant diagram. -/
theorem C9_positive_bounds_witness :
    c1_diagram.participants ≠ [] ∧
    (0 < (layout c1_diagram).bounds.width ∧
     0 < (layout c1_diagram).bounds.height) :=
  ⟨by decide, C9_positive_bounds c1_diagram (by decide)⟩

/-- The cumulative already-allocated arrow length between the endpoint
participants of a long message: crossed spacings plus half the end widths and
the full intermediate widths (the `current_arrow_length` of
`calculate_participant_spacing`). -/
def spacing_cum (participant_widths spacing : List ℚ)
    (start_idx end_idx : Nat) : ℚ :=
  ((List.range' start_idx (end_idx - start_idx)).map
    (fun i => spacing.getD i 0)).sum +
  ((participant_widths.getD start_idx 0) / 2 +
   ((List.range' (start_idx + 1) (end_idx - (start_idx + 1))).map
     (fun i => participant_widths.getD i 0)).sum +
   (participant_widths.getD end_idx 0) / 2)

lemma getD_set_self (l : List ℚ) (i : Nat) (v : ℚ) (h : i < l.length) :
    (l.set i v).getD i 0 = v := by
  simp [List.getD_eq_getElem?_getD, List.getElem?_set, h]

lemma getD_set_ne (l : List ℚ) (i j : Nat) (v : ℚ) (h : j ≠ i) :
    (l.set i v).getD j 0 = l.getD j 0 := by
  simp [List.getD_eq_getElem?_getD, List.getElem?_set, (Ne.symm h)]

lemma pairwise_flatMap_filter {α : Type} (key : α → Nat) (l : List α) :
    ∀ (ns : List Nat), ns.Pairwise (· < ·) →
      (ns.flatMap (fun s => l.filter (fun m => key m = s))).Pairwise
        (fun a b => key a ≤ key b) := by
  intro ns
  induction ns with
  | nil => intro _; simp
  | cons s rest ih =>
      intro hp
      rw [List.flatMap_cons, List.pairwise_append]
      refine ⟨?_, ih (List.Pairwise.sublist (List.sublist_cons_self s rest) hp), ?_⟩
      · refine List.pairwise_of_forall_mem_list ?_
        intro a ha b hb
        have hka : key a = s := by simpa using (List.mem_filter.mp ha).2
        have hkb : key b = s := by simpa using (List.mem_filter.mp hb).2
        omega
      · intro a ha b hb
        have hka : key a = s := by
          simpa using (List.mem_filter.mp ha).2
        rcases List.mem_flatMap.mp hb with ⟨s', hs', hbmem⟩
        have hkb : key b = s' := by
          simpa using (List.mem_filter.mp hbmem).2
        have hss : s < s' := (List.pairwise_cons.mp hp).1 s' hs'
        omega

/-- C7: spacing processes messages grouped by span in ascending span order
(the grouped list of `calculate_participant_spacing` has nondecreasing spans),
and a `span > 1` message adds exactly its deficit — required arrow length
minus the cumulative allocated distance — to the first crossed segment when
the cumulative distance falls short, enlarging no other segment, and changes
nothing otherwise. -/
theorem C7_long_message_spacing :
    (∀ (collected : List (Nat × Nat × ℚ)) (n : Nat),
      ((List.range n).flatMap
        (fun s => collected.filter (fun m => m.2.1 - m.1 = s))).Pairwise
        (fun a b => a.2.1 - a.1 ≤ b.2.1 - b.1)) ∧
    (∀ (participant_widths : List ℚ) (min_spacing : ℚ) (spacing : List ℚ)
        (direct_pairs : List Nat) (start_idx end_idx : Nat) (text_width : ℚ),
      1 < end_idx - start_idx → start_idx < spacing.length →
      (spacing_cum participant_widths spacing start_idx end_idx
          < text_width + 20 →
        (spacing_step participant_widths min_spacing (spacing, direct_pairs)
            (start_idx, end_idx, text_width)).1.getD start_idx 0
          = spacing.getD start_idx 0 +
            (text_width + 20 -
              spacing_cum participant_widths spacing start_idx end_idx)) ∧
      (text_width + 20
          ≤ spacing_cum participant_widths spacing start_idx end_idx →
        (spacing_step participant_widths min_spacing (spacing, direct_pairs)
            (start_idx, end_idx, text_width)).1 = spacing) ∧
      (∀ i, i ≠ start_idx →
        (spacing_step participant_widths min_spacing (spacing, direct_pairs)
            (start_idx, end_idx, text_width)).1.getD i 0
          = spacing.getD i 0)) := by
  constructor
  · intro collected n
    exact pairwise_flatMap_filter (fun m => m.2.1 - m.1) collected
      (List.range n) (List.pairwise_lt_range n)
  · intro pw ms spacing dp s e w hspan hlen
    have hne : ¬ (e - s = 1) := by omega
    refine ⟨?_, ?_, ?_⟩
    · intro hlt
      unfold spacing_step
      simp only [hne, if_false]
      rw [if_pos (by exact hlt)]
      exact getD_set_self spacing s _ hlen
    · intro hge
      unfold spacing_step
      simp only [hne, if_false]
      rw [if_neg (by exact not_lt.mpr hge)]
    · intro i hi
      unfold spacing_step
      simp only [hne, if_false]
      split
      · exact getD_set_ne spacing s i _ hi
      · rfl

/-- Concrete data for the C7 witness: four 50-wide participants, default
spacings, one span-2 message whose label needs 320 units but only 200 are
allocated. -/
def c7_pw : List ℚ := [50, 50, 50, 50]

/-- Concrete spacing vector for the C7 witness. -/
def c7_spacing : List ℚ := [50, 50, 50]

/-- Witness for `C7_long_message_spacing`: the deficit 120 lands entirely on
segment 0 and segment 1 is untouched. -/
theorem C7_long_message_spacing_witness :
    (1 < 2 - 0 ∧ 0 < c7_spacing.length ∧
      spacing_cum c7_pw c7_spacing 0 2 < 300 + 20) ∧
    (spacing_step c7_pw 50 (c7_spacing, []) (0, 2, 300)).1.getD 0 0
      = c7_spacing.getD 0 0 + (300 + 20 - spacing_cum c7_pw c7_spacing 0 2) ∧
    (spacing_step c7_pw 50 (c7_spacing, []) (0, 2, 300)).1.getD 1 0
      = c7_spacing.getD 1 0 :=
  ⟨⟨by decide, by decide,
    by norm_num [spacing_cum, c7_pw, c7_spacing, List.range']⟩,
   (C7_long_message_spacing.2 c7_pw 50 c7_spacing [] 0 2 300 (by decide)
      (by decide)).1
     (by norm_num [spacing_cum, c7_pw, c7_spacing, List.range']),
   (C7_long_message_spacing.2 c7_pw 50 c7_spacing [] 0 2 300 (by decide)
      (by decide)).2.2 1 (by decide)⟩

/-- Internal id for `[*]` as a source, from `state/engine.rs`. -/
def INITIAL_STATE_ID : String := "[*]_initial"

/-- Internal id for `[*]` as a target, from `state/engine.rs`. -/
def FINAL_STATE_ID : String := "[*]_final"

/-- One round of the bounded BFS of `assign_levels` in `state/engine.rs`: the
body of the `for _ in 0..max_iterations` loop.  `levels` is the map from the
previous round (read-only, like the Rust `levels.get(from)`), the fold
accumulator is the Rust `new_levels`.  The `IndexMap`s are association lists
in insertion order. -/
def level_round_step (levels new_levels : List (String × Nat))
    (t : String × String × Option String) : List (String × Nat) :=
  if t.2.1 = FINAL_STATE_ID then new_levels
  else
    match alist_get levels t.1 with
    | some from_level =>
        if (alist_get new_levels t.2.1).isNone then
          new_levels ++ [(t.2.1, from_level + 1)]
        else new_levels
    | none => new_levels

def level_round (transitions : List (String × String × Option String))
    (levels : List (String × Nat)) : List (String × Nat) :=
  transitions.foldl (level_round_step levels) levels

/-- The bounded iteration of `assign_levels`: run `level_round` up to the fuel
bound, stopping (and keeping the old map) as soon as a round adds no key. -/
def level_iterate (transitions : List (String × String × Option String)) :
    Nat → List (String × Nat) → List (String × Nat)
  | 0, levels => levels
  | fuel + 1, levels =>
      let new_levels := level_round transitions levels
      if new_levels.length = levels.length then levels
      else level_iterate transitions fuel new_levels

lemma level_iterate_succ (ts : List (String × String × Option String))
    (fuel : Nat) (lv : List (String × Nat)) :
    level_iterate ts (fuel + 1) lv
      = if (level_round ts lv).length = lv.length then lv
        else level_iterate ts fuel (level_round ts lv) := rfl

/-- `levels.values().max().unwrap_or(0)` of `assign_levels`. -/
def max_level_of (levels : List (String × Nat)) : Nat :=
  (levels.map (fun p => p.2)).foldr max 0

/-- The level-map seeding of `assign_levels`: initial nodes at level 0 (or all
non-target states when there is no `[*]` initial), falling back to the first
non-FINAL state when still empty. -/
def seed_levels (all_states : List String)
    (transitions : List (String × String × Option String))
    (has_initial : Bool) : List (String × Nat) :=
  let levels : List (String × Nat) :=
    if has_initial then [(INITIAL_STATE_ID, 0)]
    else
      let targets := transitions.map (fun t => t.2.1)
      all_states.foldl (fun acc state =>
        if state ≠ FINAL_STATE_ID ∧ ¬ targets.contains state then
          alist_put acc state 0
        else acc) []
  if levels.isEmpty then
    match all_states.find? (fun s => s ≠ FINAL_STATE_ID) with
    | some first => [(first, 0)]
    | none => levels
  else levels

/-- The final default pass of `assign_levels`: any state still without a
level gets 0. -/
def default_level_step (acc : List (String × Nat)) (state : String) :
    List (String × Nat) :=
  if (alist_get acc state).isNone then acc ++ [(state, 0)] else acc

/-- The level map of `assign_levels` just before the default pass: seed,
bounded iteration, then the FINAL placement at `max_level + 1`. -/
def pre_default_levels (all_states : List String)
    (transitions : List (String × String × Option String))
    (has_initial has_final : Bool) : List (String × Nat) :=
  let levels := seed_levels all_states transitions has_initial
  let max_iterations := all_states.length + 1
  let levels := level_iterate transitions max_iterations levels
  if has_final then
    levels ++ [(FINAL_STATE_ID, max_level_of levels + 1)]
  else levels

/-- Assigns a level to every state, from `assign_levels` in
`state/engine.rs`. -/
def assign_levels (all_states : List String)
    (transitions : List (String × String × Option String))
    (has_initial has_final : Bool) : List (String × Nat) :=
  all_states.foldl default_level_step
    (pre_default_levels all_states transitions has_initial has_final)

lemma alist_get_eq_none {α : Type} (l : List (String × α)) (k : String) :
    alist_get l k = none ↔ k ∉ l.map Prod.fst := by
  induction l with
  | nil => simp [alist_get]
  | cons h t ih =>
      obtain ⟨k', v⟩ := h
      by_cases hk : k' = k
      · subst hk; simp [alist_get]
      · simp only [alist_get, hk, if_false, List.map_cons, List.mem_cons, ih]
        constructor
        · intro h hc
          rcases hc with hc | hc
          · exact hk hc.symm
          · exact h hc
        · intro h hc
          exact h (Or.inr hc)

lemma alist_get_append_some {α : Type} (l₁ l₂ : List (String × α)) (k : String)
    (v : α) (h : alist_get l₁ k = some v) :
    alist_get (l₁ ++ l₂) k = some v := by
  induction l₁ with
  | nil => simp [alist_get] at h
  | cons hd t ih =>
      obtain ⟨k', v'⟩ := hd
      by_cases hk : k' = k <;> simp [alist_get, hk] at h ⊢
      · exact h
      · exact ih h

lemma alist_get_append_none {α : Type} (l₁ l₂ : List (String × α)) (k : String)
    (h : alist_get l₁ k = none) :
    alist_get (l₁ ++ l₂) k = alist_get l₂ k := by
  induction l₁ with
  | nil => rfl
  | cons hd t ih =>
      obtain ⟨k', v'⟩ := hd
      by_cases hk : k' = k <;> simp [alist_get, hk] at h ⊢
      exact ih h

lemma alist_put_keys {α : Type} (l : List (String × α)) (k : String) (v : α) :
    (alist_put l k v).map Prod.fst
      = if k ∈ l.map Prod.fst then l.map Prod.fst
        else l.map Prod.fst ++ [k] := by
  induction l with
  | nil => simp [alist_put]
  | cons hd t ih =>
      obtain ⟨k', v'⟩ := hd
      by_cases hk : k' = k
      · subst hk; simp [alist_put]
      · have hkk : ¬ (k = k') := fun h => hk h.symm
        simp only [alist_put, hk, if_false, List.map_cons]
        rw [ih]
        by_cases hm : k ∈ t.map Prod.fst
        · rw [if_pos hm, if_pos (List.mem_cons.mpr (Or.inr hm))]
        · have hninc : k ∉ k' :: t.map Prod.fst := by
            intro hc
            rcases List.mem_cons.mp hc with hc | hc
            · exact hkk hc
            · exact hm hc
          rw [if_neg hm, if_neg hninc]
          rfl

/-- Each `level_round` step only extends the accumulated map, and every added
key is a non-FINAL transition target. -/
lemma level_round_fold_extension (lv : List (String × Nat)) :
    ∀ (ts : List (String × String × Option String))
      (acc : List (String × Nat)),
    ∃ ex, ts.foldl (level_round_step lv) acc = acc ++ ex ∧
      ∀ p ∈ ex, p.1 ≠ FINAL_STATE_ID ∧ p.1 ∈ ts.map (fun t => t.2.1) ∧
        ∃ w, p.2 = w + 1 := by
  intro ts
  induction ts with
  | nil => intro acc; exact ⟨[], by simp⟩
  | cons t rest ih =>
      intro acc
      have hstep : level_round_step lv acc t = acc ∨
          ∃ w, level_round_step lv acc t = acc ++ [(t.2.1, w + 1)]
            ∧ t.2.1 ≠ FINAL_STATE_ID := by
        unfold level_round_step
        split
        · exact Or.inl rfl
        · next hfin =>
            split
            · split
              · next w _ _ => exact Or.inr ⟨w, rfl, hfin⟩
              · exact Or.inl rfl
            · exact Or.inl rfl
      rcases hstep with h | ⟨w, h, hfin⟩ <;>
        obtain ⟨ex, hex, hprop⟩ := ih (level_round_step lv acc t)
      · refine ⟨ex, by rw [List.foldl_cons, hex, h], ?_⟩
        intro p hp
        obtain ⟨h1, h2, h3⟩ := hprop p hp
        exact ⟨h1, by simp [h2], h3⟩
      · refine ⟨(t.2.1, w + 1) :: ex, ?_, ?_⟩
        · rw [List.foldl_cons, hex, h, List.append_assoc]
          rfl
        · intro p hp
          rcases List.mem_cons.mp hp with h' | h'
          · subst h'; exact ⟨hfin, by simp, w, rfl⟩
          · obtain ⟨h1, h2, h3⟩ := hprop p h'
            exact ⟨h1, by simp [h2], h3⟩

/-- `level_round` only extends the map; added keys are non-FINAL targets. -/
lemma level_round_extension (ts : List (String × String × Option String))
    (lv : List (String × Nat)) :
    ∃ ex, level_round ts lv = lv ++ ex ∧
      ∀ p ∈ ex, p.1 ≠ FINAL_STATE_ID ∧ p.1 ∈ ts.map (fun t => t.2.1) := by
  obtain ⟨ex, hex, hp⟩ := level_round_fold_extension lv ts lv
  exact ⟨ex, hex, fun p h => ⟨(hp p h).1, (hp p h).2.1⟩⟩

/-- C8 helper: an assigned level survives a round (levels are set only when
not yet assigned). -/
lemma level_round_preserves_some
    (ts : List (String × String × Option String)) (lv : List (String × Nat))
    (s : String) (v : Nat) (h : alist_get lv s = some v) :
    alist_get (level_round ts lv) s = some v := by
  obtain ⟨ex, hex, _⟩ := level_round_extension ts lv
  rw [hex]
  exact alist_get_append_some _ _ _ _ h

lemma level_iterate_preserves_some
    (ts : List (String × String × Option String)) :
    ∀ (fuel : Nat) (lv : List (String × Nat)) (s : String) (v : Nat),
    alist_get lv s = some v →
    alist_get (level_iterate ts fuel lv) s = some v := by
  intro fuel
  induction fuel with
  | zero => intro lv s v h; exact h
  | succ n ih =>
      intro lv s v h
      rw [level_iterate_succ]
      split
      · exact h
      · exact ih _ s v (level_round_preserves_some ts lv s v h)

/-- Keys added by a round never shadow, and a round keeps nodup keys. -/
lemma level_round_nodup_keys
    (ts : List (String × String × Option String)) (lv : List (String × Nat)) :
    ∀ (acc : List (String × Nat)), (acc.map Prod.fst).Nodup →
      ((ts.foldl (level_round_step lv) acc).map Prod.fst).Nodup := by
  induction ts with
  | nil => intro acc h; exact h
  | cons t rest ih =>
      intro acc h
      rw [List.foldl_cons]
      refine ih _ ?_
      unfold level_round_step
      split
      · exact h
      · split
        · split
          · next hnone =>
              rw [List.map_append]
              rw [List.nodup_append]
              refine ⟨h, by simp, ?_⟩
              intro a ha hb
              simp at hb
              subst hb
              exact absurd ha ((alist_get_eq_none acc t.2.1).mp
                (Option.isNone_iff_eq_none.mp hnone))
          · exact h
        · exact h

lemma level_round_keys_subset (all_states : List String)
    (ts : List (String × String × Option String))
    (htrans : ∀ t ∈ ts, t.2.1 = FINAL_STATE_ID ∨ t.2.1 ∈ all_states)
    (lv : List (String × Nat)) (hsub : ∀ k ∈ lv.map Prod.fst, k ∈ all_states) :
    ∀ k ∈ (level_round ts lv).map Prod.fst, k ∈ all_states := by
  obtain ⟨ex, hex, hprop⟩ := level_round_extension ts lv
  rw [hex, List.map_append]
  intro k hk
  rcases List.mem_append.mp hk with h | h
  · exact hsub k h
  · rcases List.mem_map.mp h with ⟨p, hp, hpk⟩
    subst hpk
    obtain ⟨hfin, htarget⟩ := hprop p hp
    rcases List.mem_map.mp htarget with ⟨t, ht, htt⟩
    rcases htrans t ht with h' | h'
    · exact absurd (htt.symm ▸ h') hfin
    · exact htt ▸ h'

lemma level_round_eq_of_length (ts : List (String × String × Option String))
    (lv : List (String × Nat))
    (h : (level_round ts lv).length = lv.length) :
    level_round ts lv = lv := by
  obtain ⟨ex, hex, _⟩ := level_round_extension ts lv
  rw [hex] at h ⊢
  have hnil : ex = [] := by
    rw [List.length_append] at h
    exact List.eq_nil_of_length_eq_zero (by omega)
  simp [hnil]

lemma keys_length_le (lv : List (String × Nat)) (states : List String)
    (hnd : (lv.map Prod.fst).Nodup)
    (hsub : ∀ k ∈ lv.map Prod.fst, k ∈ states) :
    lv.length ≤ states.length := by
  have h1 := (List.subperm_of_subset hnd
    (fun a ha => hsub a ha)).length_le
  simpa using h1

/-- Within `|states| + 1` rounds the iteration reaches a fixed point: one more
round adds nothing. -/
lemma level_iterate_fixpoint (states : List String)
    (ts : List (String × String × Option String))
    (htrans : ∀ t ∈ ts, t.2.1 = FINAL_STATE_ID ∨ t.2.1 ∈ states) :
    ∀ (fuel : Nat) (lv : List (String × Nat)),
      (lv.map Prod.fst).Nodup → (∀ k ∈ lv.map Prod.fst, k ∈ states) →
      states.length + 1 ≤ fuel + lv.length →
      level_round ts (level_iterate ts fuel lv) = level_iterate ts fuel lv := by
  intro fuel
  induction fuel with
  | zero =>
      intro lv hnd hsub hle
      have := keys_length_le lv states hnd hsub
      omega
  | succ n ih =>
      intro lv hnd hsub hle
      rw [level_iterate_succ]
      split
      · next heq => exact level_round_eq_of_length ts lv heq
      · next hne =>
          refine ih (level_round ts lv) ?_ ?_ ?_
          · exact level_round_nodup_keys ts lv lv hnd
          · exact level_round_keys_subset states ts htrans lv hsub
          · obtain ⟨ex, hex, _⟩ := level_round_extension ts lv
            have hexne : ex ≠ [] := by
              intro hx
              rw [hex, hx] at hne
              simp at hne
            have hlen : lv.length + 1 ≤ (level_round ts lv).length := by
              rw [hex, List.length_append]
              have := List.length_pos.mpr hexne
              omega
            omega

lemma seed_fold_props (targets : List String) :
    ∀ (sts : List String) (acc : List (String × Nat)),
      (acc.map Prod.fst).Nodup →
      (((sts.foldl (fun acc state =>
          if state ≠ FINAL_STATE_ID ∧ ¬ targets.contains state then
            alist_put acc state 0
          else acc) acc).map Prod.fst).Nodup ∧
      ∀ k ∈ (sts.foldl (fun acc state =>
          if state ≠ FINAL_STATE_ID ∧ ¬ targets.contains state then
            alist_put acc state 0
          else acc) acc).map Prod.fst,
        k ∈ acc.map Prod.fst ∨ (k ∈ sts ∧ k ≠ FINAL_STATE_ID)) := by
  intro sts
  induction sts with
  | nil => intro acc h; exact ⟨h, fun k hk => Or.inl hk⟩
  | cons s rest ih =>
      intro acc h
      rw [List.foldl_cons]
      have hacc' : ∀ (acc' : List (String × Nat)),
          acc' = (if s ≠ FINAL_STATE_ID ∧ ¬ targets.contains s then
            alist_put acc s 0 else acc) →
          (acc'.map Prod.fst).Nodup ∧
          (∀ k ∈ acc'.map Prod.fst,
            k ∈ acc.map Prod.fst ∨ (k = s ∧ k ≠ FINAL_STATE_ID)) := by
        intro acc' heq
        by_cases hc : s ≠ FINAL_STATE_ID ∧ ¬ targets.contains s
        · rw [if_pos hc] at heq
          subst heq
          rw [alist_put_keys]
          by_cases hm : s ∈ acc.map Prod.fst
          · rw [if_pos hm]
            exact ⟨h, fun k hk => Or.inl hk⟩
          · rw [if_neg hm]
            constructor
            · rw [List.nodup_append]
              refine ⟨h, by simp, ?_⟩
              intro a ha hb
              simp at hb
              subst hb
              exact hm ha
            · intro k hk
              rcases List.mem_append.mp hk with hk | hk
              · exact Or.inl hk
              · simp at hk
                subst hk
                exact Or.inr ⟨rfl, hc.1⟩
        · rw [if_neg hc] at heq
          subst heq
          exact ⟨h, fun k hk => Or.inl hk⟩
      obtain ⟨hnd', horigin⟩ := hacc' _ rfl
      obtain ⟨hnd'', horigin'⟩ := ih _ hnd'
      refine ⟨hnd'', ?_⟩
      intro k hk
      rcases horigin' k hk with hk' | hk'
      · rcases horigin k hk' with hk'' | hk''
        · exact Or.inl hk''
        · exact Or.inr ⟨List.mem_cons.mpr (Or.inl hk''.1), hk''.2⟩
      · exact Or.inr ⟨List.mem_cons.mpr (Or.inr hk'.1), hk'.2⟩

/-- The seeded level map has nodup keys, keys among the states, and no FINAL
key. -/
lemma seed_levels_props (states : List String)
    (ts : List (String × String × Option String)) (hi : Bool)
    (hinit : hi = true → INITIAL_STATE_ID ∈ states) :
    ((seed_levels states ts hi).map Prod.fst).Nodup ∧
    (∀ k ∈ (seed_levels states ts hi).map Prod.fst, k ∈ states) ∧
    FINAL_STATE_ID ∉ (seed_levels states ts hi).map Prod.fst := by
  unfold seed_levels
  cases hi with
  | true =>
      simp only [if_true]
      have : ([(INITIAL_STATE_ID, 0)] : List (String × Nat)).isEmpty = false := rfl
      rw [this]
      simp only [Bool.false_eq_true, if_false]
      refine ⟨by simp, ?_, ?_⟩
      · intro k hk
        simp at hk
        subst hk
        exact hinit rfl
      · intro hk
        simp at hk
        exact absurd hk.symm (by decide)
  | false =>
      simp only [Bool.false_eq_true, if_false]
      obtain ⟨hnd, horigin⟩ := seed_fold_props
        (ts.map (fun t => t.2.1)) states [] (by simp)
      split
      · next hempty =>
          split
          · next first hfind =>
              refine ⟨by simp, ?_, ?_⟩
              · intro k hk
                simp at hk
                subst hk
                exact List.mem_of_find?_eq_some hfind
              · intro hk
                simp at hk
                have := List.find?_some hfind
                simp at this
                exact this hk.symm
          · have hnil := List.isEmpty_iff.mp hempty
            rw [hnil]
            exact ⟨by simp, by simp, by simp⟩
      · refine ⟨hnd, ?_, ?_⟩
        · intro k hk
          rcases horigin k hk with h | h
          · simp at h
          · exact h.1
        · intro hk
          rcases horigin _ hk with h | h
          · simp at h
          · exact h.2 rfl

lemma level_round_no_final (ts : List (String × String × Option String))
    (lv : List (String × Nat))
    (h : FINAL_STATE_ID ∉ lv.map Prod.fst) :
    FINAL_STATE_ID ∉ (level_round ts lv).map Prod.fst := by
  obtain ⟨ex, hex, hprop⟩ := level_round_extension ts lv
  rw [hex, List.map_append]
  intro hk
  rcases List.mem_append.mp hk with hk | hk
  · exact h hk
  · rcases List.mem_map.mp hk with ⟨p, hp, hpk⟩
    exact (hprop p hp).1 hpk

lemma level_iterate_no_final (ts : List (String × String × Option String)) :
    ∀ (fuel : Nat) (lv : List (String × Nat)),
      FINAL_STATE_ID ∉ lv.map Prod.fst →
      FINAL_STATE_ID ∉ (level_iterate ts fuel lv).map Prod.fst := by
  intro fuel
  induction fuel with
  | zero => intro lv h; exact h
  | succ n ih =>
      intro lv h
      rw [level_iterate_succ]
      split
      · exact h
      · exact ih _ (level_round_no_final ts lv h)

lemma default_fold_preserves_some :
    ∀ (sts : List String) (acc : List (String × Nat)) (s : String) (v : Nat),
      alist_get acc s = some v →
      alist_get (sts.foldl default_level_step acc) s = some v := by
  intro sts
  induction sts with
  | nil => intro acc s v h; exact h
  | cons t rest ih =>
      intro acc s v h
      rw [List.foldl_cons]
      refine ih _ s v ?_
      unfold default_level_step
      split
      · exact alist_get_append_some _ _ _ _ h
      · exact h

lemma default_fold_zero :
    ∀ (sts : List String) (acc : List (String × Nat)) (s : String),
      s ∈ sts → alist_get acc s = none →
      alist_get (sts.foldl default_level_step acc) s = some 0 := by
  intro sts
  induction sts with
  | nil => intro acc s h; cases h
  | cons t rest ih =>
      intro acc s hmem hnone
      rw [List.foldl_cons]
      by_cases ht : t = s
      · subst ht
        have hstep : default_level_step acc t = acc ++ [(t, 0)] := by
          unfold default_level_step
          rw [if_pos (by simp [hnone])]
        rw [hstep]
        refine default_fold_preserves_some rest _ t 0 ?_
        rw [alist_get_append_none _ _ _ hnone]
        simp [alist_get]
      · have hrest : s ∈ rest := by
          rcases List.mem_cons.mp hmem with h | h
          · exact absurd h.symm ht
          · exact h
        refine ih _ s hrest ?_
        unfold default_level_step
        split
        · rw [alist_get_append_none _ _ _ hnone]
          simp [alist_get, ht]
        · exact hnone

lemma default_fold_isSome
    (sts : List String) (acc : List (String × Nat)) (s : String)
    (hmem : s ∈ sts) :
    (alist_get (sts.foldl default_level_step acc) s).isSome = true := by
  cases hv : alist_get acc s with
  | some v => rw [default_fold_preserves_some sts acc s v hv]; rfl
  | none => rw [default_fold_zero sts acc s hmem hv]; rfl

/-- C8: in state-diagram level assignment, (a) the synthesized initial node
gets level 0; (b) a round never overwrites an assigned level (a target is set
only when unset); (c) a transition `from → to` with `to` not FINAL and unset
assigns `level(from) + 1` to `to`; (d) the bounded iteration of `|states| + 1`
rounds reaches a fixed point (one more round changes nothing); (e) the FINAL
node then lands at `max_level + 1`; (f) every state ends with a level; (g) a
state still unassigned before the default pass gets level 0. -/
theorem C8_assign_levels (all_states : List String)
    (transitions : List (String × String × Option String))
    (has_initial has_final : Bool)
    (htrans : ∀ t ∈ transitions,
      t.2.1 = FINAL_STATE_ID ∨ t.2.1 ∈ all_states)
    (hinit : has_initial = true → INITIAL_STATE_ID ∈ all_states) :
    (has_initial = true →
      alist_get (assign_levels all_states transitions has_initial has_final)
        INITIAL_STATE_ID = some 0) ∧
    (∀ (lv : List (String × Nat)) (s : String) (v : Nat),
      alist_get lv s = some v →
      alist_get (level_round transitions lv) s = some v) ∧
    (∀ (lv : List (String × Nat)) (src tgt : String) (lbl : Option String)
        (v : Nat),
      tgt ≠ FINAL_STATE_ID → alist_get lv src = some v →
      alist_get lv tgt = none →
      level_round [(src, tgt, lbl)] lv = lv ++ [(tgt, v + 1)]) ∧
    (level_round transitions
        (level_iterate transitions (all_states.length + 1)
          (seed_levels all_states transitions has_initial))
      = level_iterate transitions (all_states.length + 1)
          (seed_levels all_states transitions has_initial)) ∧
    (has_final = true →
      alist_get (assign_levels all_states transitions has_initial has_final)
          FINAL_STATE_ID
        = some (max_level_of (level_iterate transitions
            (all_states.length + 1)
            (seed_levels all_states transitions has_initial)) + 1)) ∧
    (∀ s ∈ all_states,
      (alist_get (assign_levels all_states transitions has_initial has_final)
        s).isSome = true) ∧
    (∀ s ∈ all_states,
      alist_get (pre_default_levels all_states transitions has_initial
        has_final) s = none →
      alist_get (assign_levels all_states transitions has_initial has_final)
        s = some 0) := by
  obtain ⟨hsnd, hssub, hsfin⟩ :=
    seed_levels_props all_states transitions has_initial hinit
  refine ⟨?_, ?_, ?_, ?_, ?_, ?_, ?_⟩
  · intro hhi
    subst hhi
    have h0 : alist_get (seed_levels all_states transitions true)
        INITIAL_STATE_ID = some 0 := by
      unfold seed_levels
      rfl
    have h1 := level_iterate_preserves_some transitions
      (all_states.length + 1) _ _ _ h0
    have h2 : alist_get (pre_default_levels all_states transitions true
        has_final) INITIAL_STATE_ID = some 0 := by
      unfold pre_default_levels
      split
      · exact alist_get_append_some _ _ _ _ h1
      · exact h1
    exact default_fold_preserves_some all_states _ _ _ h2
  · exact fun lv s v h => level_round_preserves_some transitions lv s v h
  · intro lv src tgt lbl v hfin hsrc htgt
    unfold level_round
    rw [List.foldl_cons, List.foldl_nil]
    unfold level_round_step
    rw [if_neg (by simpa using hfin)]
    simp only [hsrc]
    rw [if_pos (by simp [htgt])]
  · exact level_iterate_fixpoint all_states transitions htrans
      (all_states.length + 1) _ hsnd hssub (by omega)
  · intro hhf
    subst hhf
    have hnof := level_iterate_no_final transitions (all_states.length + 1)
      _ hsfin
    have hnone : alist_get (level_iterate transitions
        (all_states.length + 1)
        (seed_levels all_states transitions has_initial)) FINAL_STATE_ID
        = none := (alist_get_eq_none _ _).mpr hnof
    have h2 : alist_get (pre_default_levels all_states transitions
        has_initial true) FINAL_STATE_ID
        = some (max_level_of (level_iterate transitions
            (all_states.length + 1)
            (seed_levels all_states transitions has_initial)) + 1) := by
      unfold pre_default_levels
      rw [if_pos rfl, alist_get_append_none _ _ _ hnone]
      simp [alist_get]
    exact default_fold_preserves_some all_states _ _ _ h2
  · intro s hs
    exact default_fold_isSome all_states _ s hs
  · intro s hs hnone
    exact default_fold_zero all_states _ s hs hnone

/-- Concrete transition list for the C8 witness: initial → A → B → final. -/
def c8_transitions : List (String × String × Option String) :=
  [(INITIAL_STATE_ID, "A", none), ("A", "B", none),
   ("B", FINAL_STATE_ID, none)]

/-- Concrete state list for the C8 witness. -/
def c8_states : List String := [INITIAL_STATE_ID, "A", "B", FINAL_STATE_ID]

/-- Witness for `C8_assign_levels` on the three-transition chain: the initial
node sits at level 0, B keeps its level through an extra round, A → B places B
at level(A) + 1, the FINAL node lands at max + 1, and every state gets a
level. -/
theorem C8_assign_levels_witness :
    ((∀ t ∈ c8_transitions,
        t.2.1 = FINAL_STATE_ID ∨ t.2.1 ∈ c8_states) ∧
     (true = true → INITIAL_STATE_ID ∈ c8_states)) ∧
    (alist_get (assign_levels c8_states c8_transitions true true)
        INITIAL_STATE_ID = some 0) ∧
    (level_round [("A", "B", (none : Option String))] [("A", 1)]
      = [("A", 1)] ++ [("B", 2)]) ∧
    (alist_get (assign_levels c8_states c8_transitions true true)
        FINAL_STATE_ID
      = some (max_level_of (level_iterate c8_transitions
          (c8_states.length + 1)
          (seed_levels c8_states c8_transitions true)) + 1)) ∧
    ((alist_get (assign_levels c8_states c8_transitions true true)
        "B").isSome = true) := by
  have htrans : ∀ t ∈ c8_transitions,
      t.2.1 = FINAL_STATE_ID ∨ t.2.1 ∈ c8_states := by decide
  have hinit : true = true → INITIAL_STATE_ID ∈ c8_states := by decide
  have h := C8_assign_levels c8_states c8_transitions true true htrans hinit
  exact ⟨⟨htrans, hinit⟩, h.1 rfl,
    h.2.2.1 [("A", 1)] "A" "B" none 1 (by decide) (by decide) (by decide),
    h.2.2.2.2.1 rfl,
    h.2.2.2.2.2.1 "B" (by decide)⟩

end PlantUml
